import Mathlib

/-!
Verification of the invoice-generator script (`script.py`).

The development shallowly embeds the script's data model and operations:

* amounts and page coordinates are exact rationals, represented by the
  unnormalised pair type `Q` below (Python floats are embedded as the
  decimal rationals they denote; `round(x, 2)` and the `%.2f` / `%.4f`
  format specifiers are embedded as round-half-to-even on rationals);
* the configuration JSON document is the structure `Config`, where a
  field read with `dict.get(key, default)` in the source is an `Option`
  consumed with `Option.getD`, and a field read with direct `dict[key]`
  indexing is an `Option` whose `none` case raises (`Except.error`);
* the single HTTP fetch is an oracle argument `FetchOutcome`: either the
  parsed date-to-rate series or a failure (any exception in the `try`);
* the ReportLab canvas is a list of pages, each a list of draw
  operations, and `Table.split` is modelled as the documented
  row-boundary split into a fitting prefix and the remainder;
* Python's `textwrap.wrap` (default options) is modelled chunk by chunk
  for text without hyphen characters (`break_on_hyphens` only affects
  hyphenated words).
-/

/-! ## Exact rational arithmetic

`Q` is an exact, unnormalised rational: numerator an integer and
denominator a natural number.  All constructors used below produce
positive denominators, and `Q.le`, `Q.lt` and `Q.floor` are the usual
cross-multiplication forms, valid for positive denominators. -/

structure Q where
  n : Int
  d : Nat
  deriving DecidableEq, Repr

def Q.ofInt (i : Int) : Q := ⟨i, 1⟩

def Q.ofNat (m : Nat) : Q := ⟨(m : Int), 1⟩

def Q.add (a b : Q) : Q := ⟨a.n * (b.d : Int) + b.n * (a.d : Int), a.d * b.d⟩

def Q.sub (a b : Q) : Q := ⟨a.n * (b.d : Int) - b.n * (a.d : Int), a.d * b.d⟩

def Q.mul (a b : Q) : Q := ⟨a.n * b.n, a.d * b.d⟩

/-- Division; the divisors appearing in the script are all positive. -/
def Q.div (a b : Q) : Q :=
  if b.n < 0 then ⟨-(a.n * (b.d : Int)), a.d * (-b.n).toNat⟩
  else ⟨a.n * (b.d : Int), a.d * b.n.toNat⟩

def Q.neg (a : Q) : Q := ⟨-a.n, a.d⟩

def Q.ble (a b : Q) : Bool := a.n * (b.d : Int) ≤ b.n * (a.d : Int)

def Q.blt (a b : Q) : Bool := a.n * (b.d : Int) < b.n * (a.d : Int)

def Q.le (a b : Q) : Prop := a.n * (b.d : Int) ≤ b.n * (a.d : Int)

def Q.lt (a b : Q) : Prop := a.n * (b.d : Int) < b.n * (a.d : Int)

instance : DecidablePred (fun p : Q × Q => Q.le p.1 p.2) := fun _ => by
  unfold Q.le; infer_instance

instance (a b : Q) : Decidable (Q.le a b) := by unfold Q.le; infer_instance

instance (a b : Q) : Decidable (Q.lt a b) := by unfold Q.lt; infer_instance

/-- Floor of a rational (denominator positive). -/
def Q.floor (a : Q) : Int := a.n.fdiv (a.d : Int)

/-- Semantic (value) equality of two `Q`s, as opposed to the structural
equality used for draw-operation lists. -/
def Q.eqv (a b : Q) : Prop := a.n * (b.d : Int) = b.n * (a.d : Int)

instance (a b : Q) : Decidable (Q.eqv a b) := by unfold Q.eqv; infer_instance

/-- The rational value of a `Q` (for stating semantic facts). -/
def Q.val (a : Q) : ℚ := (a.n : ℚ) / (a.d : ℚ)

/-- Absolute value. -/
def Q.abs (a : Q) : Q := ⟨|a.n|, a.d⟩

/-! ## Rounding and number formatting

Python's `round(x, k)` and the fixed-point format specifiers round
half to even.  `roundHalfEven num den` is the integer nearest to
`num / den` (den positive), ties to even. -/

def roundHalfEven (num : Int) (den : Nat) : Int :=
  let f := num.fdiv (den : Int)
  let r := num - f * (den : Int)
  if 2 * r < (den : Int) then f
  else if (den : Int) < 2 * r then f + 1
  else if 2 ∣ f then f else f + 1

/-- `round(x, 2)` from the script's reconciliation check, embedded on
exact rationals: the value scaled to cents, rounded half to even. -/
def pyRound2 (q : Q) : Int := roundHalfEven (q.n * 100) q.d

/-- Integer scaled by `10^4`, rounding half to even (for `%.4f`). -/
def pyRound4 (q : Q) : Int := roundHalfEven (q.n * 10000) q.d

/-- Left-pad a numeral string with zeros to the given length. -/
def padZeros (k : Nat) (s : String) : String :=
  String.mk (List.replicate (k - s.length) '0') ++ s

/-- `"%02d"` on a natural number. -/
def pad2 (n : Nat) : String := padZeros 2 (toString n)

/-- `"%04d"`-style padding (used for the year in `%Y` and `%.4f`). -/
def pad4 (n : Nat) : String := padZeros 4 (toString n)

/-- Insert thousands separators into a reversed digit list
(every three digits, from the least significant end); `k` counts the
digits emitted since the last separator. -/
def commaRevAux : Nat → List Char → List Char
  | _, [] => []
  | k, c :: cs =>
    if k = 3 then ',' :: c :: commaRevAux 1 cs
    else c :: commaRevAux (k + 1) cs

/-- Thousands-grouped rendering of a natural number, as in `{:,}`. -/
def commaGroup (m : Nat) : String :=
  String.mk (commaRevAux 0 (toString m).data.reverse).reverse

/-- Python's `f"{x:,.2f}"`: round to cents half-to-even, render with
thousands separators and exactly two decimals. -/
def formatComma2 (q : Q) : String :=
  let c := pyRound2 q
  let sign := if c < 0 then "-" else ""
  let m := c.natAbs
  sign ++ commaGroup (m / 100) ++ "." ++ pad2 (m % 100)

/-- Python's `f"{x:.4f}"`: four decimals, half-to-even. -/
def format4 (q : Q) : String :=
  let c := pyRound4 q
  let sign := if c < 0 then "-" else ""
  let m := c.natAbs
  sign ++ toString (m / 10000) ++ "." ++ pad4 (m % 10000)

/-- `f"${x:,.2f}"` — the dollar-formatted amounts of the script. -/
def dollars (q : Q) : String := "$" ++ formatComma2 q

/-! ## String utilities

Python string primitives used by the script, re-implemented by
structural recursion (so that the kernel can evaluate them). -/

/-- `str.split(sep)` for a one-character separator: all pieces,
including empty ones. -/
def splitCharAux (c : Char) : List Char → List Char → List String
  | [], acc => [String.mk acc.reverse]
  | x :: xs, acc =>
    if x = c then String.mk acc.reverse :: splitCharAux c xs []
    else splitCharAux c xs (x :: acc)

def splitChar (c : Char) (s : String) : List String := splitCharAux c s.data []

/-- Lexicographic strict comparison by code point, as Python compares
`str` values. -/
def strLtChars : List Char → List Char → Bool
  | [], [] => false
  | [], _ :: _ => true
  | _ :: _, [] => false
  | a :: as, b :: bs =>
    if a.val < b.val then true
    else if b.val < a.val then false
    else strLtChars as bs

def pyStrLt (a b : String) : Bool := strLtChars a.data b.data

def pyStrLe (a b : String) : Bool := !(strLtChars b.data a.data)

/-- Stable insertion into a `pyStrLe`-sorted list. -/
def insertLe (x : String) : List String → List String
  | [] => [x]
  | y :: ys => if pyStrLe x y then x :: y :: ys else y :: insertLe x ys

/-- `sorted(...)` on strings (Python's lexicographic order). -/
def sortLe : List String → List String
  | [] => []
  | x :: xs => insertLe x (sortLe xs)

/-! ## Python `textwrap.wrap`, default options

Model of `textwrap.wrap(text, width)` with the default settings used by
the script (`replace_whitespace=True`, `drop_whitespace=True`,
`break_long_words=True`, no indents), for text without hyphen
characters (`break_on_hyphens` only changes where hyphenated words may
break).  The text is first normalised (each whitespace character
becomes a space), split into maximal chunks of spaces / non-spaces, and
the chunks are laid out greedily line by line; a chunk longer than the
width is cut to fill the remainder of the current line. -/

def pyWSChar (c : Char) : Bool :=
  c = ' ' || c = '\t' || c = '\n' || c = '\x0b' || c = '\x0c' || c = '\r'

/-- `replace_whitespace`: every whitespace character becomes `' '`. -/
def replaceWS (s : String) : String :=
  String.mk (s.data.map (fun c => if pyWSChar c then ' ' else c))

/-- Split a line into maximal runs of spaces / non-spaces: the chunk
list of `textwrap._split` on hyphen-free text only. (The source's
`textwrap.wrap` defaults include `break_on_hyphens=True`, whose
`wordsep_re` additionally ends a chunk after a letter-adjacent hyphen;
this model omits that rule, so theorems that depend on the chunking of
general text must carry a no-hyphen hypothesis.) -/
def splitRuns : List Char → List (List Char)
  | [] => []
  | c :: cs =>
    match splitRuns cs with
    | [] => [[c]]
    | [] :: rs => [c] :: [] :: rs
    | (d :: r) :: rs =>
      if (c = ' ') = (d = ' ') then (c :: d :: r) :: rs
      else [c] :: (d :: r) :: rs

def isWSChunk (ch : List Char) : Bool := ch.all (· = ' ')

def chunksLen (cs : List (List Char)) : Nat := (cs.map List.length).sum

/-- The inner fill loop: move chunks onto the current line while the
accumulated length stays within the width. -/
def fillLine (w : Nat) : Nat → List (List Char) → List (List Char) × List (List Char)
  | _, [] => ([], [])
  | curLen, ch :: rest =>
    if curLen + ch.length ≤ w then
      let p := fillLine w (curLen + ch.length) rest
      (ch :: p.1, p.2)
    else ([], ch :: rest)

/-- One-line-per-iteration wrapping loop of `textwrap._wrap_chunks`
(fuelled; `pyWrap` supplies sufficient fuel). -/
def wrapLoop (w : Nat) : Nat → List (List Char) → List (List Char) → List (List Char)
  | 0, _, lines => lines
  | fuel + 1, chunks, lines =>
    match chunks with
    | [] => lines
    | ch0 :: rest0 =>
      let chunks1 := if !lines.isEmpty && isWSChunk ch0 then rest0 else ch0 :: rest0
      match chunks1 with
      | [] => lines
      | _ :: _ =>
        let p := fillLine w 0 chunks1
        let cur := p.1
        let q :=
          match p.2 with
          | ch :: rtl =>
            if w < ch.length then
              let spaceLeft := if w = 0 then 1 else w - chunksLen cur
              (cur ++ [ch.take spaceLeft], ch.drop spaceLeft :: rtl)
            else (cur, ch :: rtl)
          | [] => (cur, ([] : List (List Char)))
        let cur3 :=
          match q.1.getLast? with
          | some lastChunk => if isWSChunk lastChunk then q.1.dropLast else q.1
          | none => q.1
        let lines' := if cur3.isEmpty then lines else lines ++ [cur3.flatten]
        wrapLoop w fuel q.2 lines'

/-- Fuel bound: total chunk length plus chunk count strictly decreases
at every iteration of the loop. -/
def wrapMeasure (cs : List (List Char)) : Nat := chunksLen cs + cs.length

/-- `textwrap.wrap(text, width)`, default options; faithful for
hyphen-free text (see `splitRuns` for the omitted hyphen rule). -/
def pyWrap (s : String) (w : Nat) : List String :=
  let chunks := splitRuns (replaceWS s).data
  (wrapLoop w (wrapMeasure chunks + 1) chunks []).map String.mk

/-- The whitespace-separated words of a line. -/
def lineWords (l : List Char) : List (List Char) :=
  (splitRuns l).filter (fun ch => !isWSChunk ch)

/-- The whitespace-separated words of a text (after whitespace
normalisation). -/
def textWords (s : String) : List (List Char) := lineWords (replaceWS s).data

/-! ## Dates

`datetime.date` values and the `strftime` formats the script uses.
`addDays` is `date + timedelta(days=n)`, calendar day stepping with
Gregorian month lengths and leap years. -/

structure PyDate where
  year : Nat
  month : Nat
  day : Nat
  deriving DecidableEq, Repr

def isLeap (y : Nat) : Bool := (y % 4 = 0 && y % 100 ≠ 0) || y % 400 = 0

def daysInMonth (y m : Nat) : Nat :=
  if m = 2 then (if isLeap y then 29 else 28)
  else if m = 4 || m = 6 || m = 9 || m = 11 then 30
  else 31

def nextDay (d : PyDate) : PyDate :=
  if d.day < daysInMonth d.year d.month then ⟨d.year, d.month, d.day + 1⟩
  else if d.month < 12 then ⟨d.year, d.month + 1, 1⟩
  else ⟨d.year + 1, 1, 1⟩

def addDays (d : PyDate) : Nat → PyDate
  | 0 => d
  | n + 1 => addDays (nextDay d) n

/-- `strftime('%d/%m/%Y')`. -/
def slashDate (d : PyDate) : String :=
  pad2 d.day ++ "/" ++ pad2 d.month ++ "/" ++ pad4 d.year

/-- `strftime('%d-%m-%Y')`. -/
def dashDate (d : PyDate) : String :=
  pad2 d.day ++ "-" ++ pad2 d.month ++ "-" ++ pad4 d.year

/-- `strftime('%Y-%m-%d')`. -/
def isoDate (d : PyDate) : String :=
  pad4 d.year ++ "-" ++ pad2 d.month ++ "-" ++ pad2 d.day

/-! ## Configuration document

The JSON configuration, with one `Option` per field the script reads.
A field the script reads with `dict[key]` raises `KeyError` when
absent; a field read with `dict.get(key, default)` degrades to the
default.  Quantities are integers (`str(quantity)` renders them in
decimal); monetary amounts are exact rationals. -/

structure Service where
  description : Option String
  unit : Option String
  quantity : Option Int
  amount_usd : Option Q
  deriving DecidableEq, Repr

structure Config where
  company_legal_name : Option String
  company_business_name : Option String
  company_contact_name : Option String
  company_email : Option String
  company_phone : Option String
  company_address : Option String
  company_siret : Option String
  receiver_name : Option String
  receiver_address : Option String
  services : List Service
  invoice_due_days : Option Nat
  invoice_last_invoice_number : Option Nat
  amount_excl_tax : Option Q
  vat : Option Q
  amount_incl_tax : Option Q
  vat_note : Option String
  payment_methods : Option String
  bank_account_holder : Option String
  bank_routing_number : Option String
  bank_account_number : Option String
  bank_account_type : Option String
  bank_bank : Option String
  bank_bank_address : Option String
  output_name : Option String
  exchange_rate : Option Q
  exchange_rate_note : Option String
  deriving DecidableEq, Repr

/-- `str` of a Python integer. -/
def intStr (i : Int) : String :=
  if i < 0 then "-" ++ toString i.natAbs else toString i.natAbs

/-! ## Rate fetch (`fetch_and_update_exchange_rate`)

The single HTTP GET, XML parse and USD-cube extraction are summarised
by an oracle: either `failure msg` (any exception raised inside the
`try` block, with `str(e)` as `msg`) or `series data`, the parsed
date-to-rate dictionary as an association list (dict keys are unique).
An empty dictionary makes `sorted(date_to_rate.keys())[-1]` raise
`IndexError`, which the same `except` catches. -/

inductive FetchOutcome where
  | failure (msg : String)
  | series (data : List (String × Q))
  deriving DecidableEq, Repr

/-- Dictionary lookup `date_to_rate[d]`. -/
def lookupRate (data : List (String × Q)) (d : String) : Option Q :=
  (data.find? (fun p => p.1 == d)).map (·.2)

def exactNote (rate : Q) (dateStr : String) : String :=
  "Applied exchange rate: EUR/USD (" ++ format4 rate ++
    "), according to the ECB for " ++ dateStr

def fallbackNote (rate : Q) (fallbackDate invoiceDate : String) : String :=
  "Applied exchange rate: EUR/USD (" ++ format4 rate ++
    "), according to the ECB for " ++ fallbackDate ++
    " (latest available before invoice date " ++ invoiceDate ++ ")"

def latestNote (rate : Q) (latestDate invoiceDate : String) : String :=
  "Applied exchange rate: EUR/USD (" ++ format4 rate ++
    "), according to the ECB for " ++ latestDate ++
    " (no rate available for or before invoice date " ++ invoiceDate ++ ")"

def fetchFailureNote (msg : String) : String :=
  "Could not fetch exchange rate from ECB. " ++ msg

/-- `fetch_and_update_exchange_rate(config, emission_date)`: the
emission date arrives as its `%Y-%m-%d` rendering `invoiceDateStr`
(the source parses the `%d/%m/%Y` string and re-formats it);
the network interaction is the `outcome` oracle.  Never raises: every
branch returns an updated configuration. -/
def fetch_and_update_exchange_rate (config : Config) (invoiceDateStr : String)
    (outcome : FetchOutcome) : Config :=
  match outcome with
  | .failure msg =>
    { config with
      exchange_rate := none
      exchange_rate_note := some (fetchFailureNote msg) }
  | .series data =>
    match lookupRate data invoiceDateStr with
    | some rate =>
      { config with
        exchange_rate := some rate
        exchange_rate_note := some (exactNote rate invoiceDateStr) }
    | none =>
      let availableDates :=
        sortLe ((data.map Prod.fst).filter (fun d => pyStrLe d invoiceDateStr))
      match availableDates.getLast? with
      | some fallbackDate =>
        let rate := (lookupRate data fallbackDate).getD ⟨0, 1⟩
        { config with
          exchange_rate := some rate
          exchange_rate_note :=
            some (fallbackNote rate fallbackDate invoiceDateStr) }
      | none =>
        match (sortLe (data.map Prod.fst)).getLast? with
        | some latestDate =>
          let rate := (lookupRate data latestDate).getD ⟨0, 1⟩
          { config with
            exchange_rate := some rate
            exchange_rate_note :=
              some (latestNote rate latestDate invoiceDateStr) }
        | none =>
          { config with
            exchange_rate := none
            exchange_rate_note :=
              some (fetchFailureNote "list index out of range") }

/-! ## Invoice numbering (`generate_invoice_id`) -/

/-- `generate_invoice_id(date_str, number)`: the source receives the
emission date as its `%d/%m/%Y` string and `strptime`/`strftime`
re-formats it as `%d-%m-%Y`; the embedding takes the date value.
`number:02d` is `pad2` for the natural sequence numbers in use. -/
def generate_invoice_id (d : PyDate) (number : Nat) : String :=
  "N° #" ++ dashDate d ++ "-" ++ pad2 number

/-! ## French translation of the exchange-rate note

`create_invoice_pdf` matches the English note against the prefix regex
`Applied exchange rate: EUR/USD \(([^)]+)\), according to the ECB for
(\d{4}-\d{2}-\d{2})` (`re.match`, so trailing text is ignored) and, on a
match, replaces it by a French sentence built from the two captures;
otherwise the note is kept verbatim. -/

/-- Strip an expected literal prefix from a character list. -/
def stripLit : List Char → List Char → Option (List Char)
  | [], rest => some rest
  | _ :: _, [] => none
  | p :: ps, c :: cs => if c = p then stripLit ps cs else none

def isDigitChar (c : Char) : Bool := '0' ≤ c && c ≤ '9'

/-- Shape check for the `\d{4}-\d{2}-\d{2}` capture. -/
def isDateShape (dt : List Char) : Bool :=
  dt.length = 10
    && ([0, 1, 2, 3, 5, 6, 8, 9].all fun i => isDigitChar (dt.getD i ' '))
    && dt.getD 4 ' ' = '-' && dt.getD 7 ' ' = '-'

/-- The regex match of the source: returns the rate capture (`[^)]+`,
maximal run without a closing parenthesis, nonempty) and the ten-digit
date capture, or `none` when the note does not start with the English
template. -/
def parseEngNote (s : String) : Option (String × String) :=
  match stripLit "Applied exchange rate: EUR/USD (".data s.data with
  | none => none
  | some r1 =>
    let rate := r1.takeWhile (fun c => c ≠ ')')
    if rate.isEmpty then none
    else
      match stripLit "), according to the ECB for ".data (r1.drop rate.length) with
      | none => none
      | some r3 =>
        let dt := r3.take 10
        if isDateShape dt then some (String.mk rate, String.mk dt) else none

def frTranslated (rate dt : String) : String :=
  "Taux de change appliqué : EUR/USD (" ++ rate ++ "), selon la BCE pour le " ++ dt

/-- Lines 178–185 of the source: the note shown in the French PDF. -/
def translateNoteFr (note : String) : String :=
  match parseEngNote note with
  | some (rate, dt) => frTranslated rate dt
  | none => note

/-! ## Layout engine (`create_invoice_pdf`)

The ReportLab canvas is modelled as pages of draw operations: drawn
strings with their positions, rectangles (the page border), rounded
rectangles (info/summary boxes) and table segments (a `drawOn` of one
part returned by `Table.split`, recorded with its bottom-left corner,
row heights and row texts). -/

inductive DrawOp where
  | text (x y : Q) (s : String)
  | rect (x y w h : Q)
  | roundRect (x y w h : Q)
  | tablePart (x y : Q) (heights : List Q) (rows : List (List String))
  deriving DecidableEq, Repr

abbrev Page := List DrawOp

structure Cv where
  pages : List Page
  cur : Page
  deriving DecidableEq, Repr

def Cv.draw (c : Cv) (ops : List DrawOp) : Cv := { c with cur := c.cur ++ ops }

/-- `canvas.showPage()`. -/
def Cv.newPage (c : Cv) : Cv := ⟨c.pages ++ [c.cur], []⟩

/-- `canvas.save()`: the document is the finished pages plus the page
being drawn. -/
def Cv.doc (c : Cv) : List Page := c.pages ++ [c.cur]

/-- A4 in points: `(210mm, 297mm)` with `1mm = 360/127` points. -/
def A4width : Q := ⟨75600, 127⟩

def A4height : Q := ⟨106920, 127⟩

def pageMargin : Q := ⟨30, 1⟩

/-- The page frame drawn on every page:
`rect(margin/2, margin/2, width - margin, height - margin)`. -/
def borderRect : DrawOp :=
  .rect ⟨15, 1⟩ ⟨15, 1⟩ (A4width.sub pageMargin) (A4height.sub pageMargin)

/-- `int(max_width / (font_size * 0.55))` — the wrap width in
characters from a width in points and a font size. -/
def wrapWidth (maxWidth fontSize : Q) : Nat :=
  (Q.floor (maxWidth.div (fontSize.mul ⟨11, 20⟩))).toNat

/-- Draw a list of lines at a fixed x, stepping down by `gap` per line
(index `i` drawn at `y - i * gap`). -/
def drawLinesAux (x y gap : Q) : Nat → List String → List DrawOp
  | _, [] => []
  | i, s :: rest =>
    .text x (y.sub ((Q.ofNat i).mul gap)) s :: drawLinesAux x y gap (i + 1) rest

/-- `draw_wrapped_text`: split the text on newlines, wrap each piece to
`int(max_width / (font_size * 0.55))` characters, draw the lines
`line_gap` apart; returns the ops, the new y and the line count. -/
def draw_wrapped_text (text : String) (x y maxWidth fontSize lineGap : Q) :
    List DrawOp × Q × Nat :=
  let w := wrapWidth maxWidth fontSize
  let ls := (splitChar '\n' text).flatMap (fun line => pyWrap line w)
  (drawLinesAux x y lineGap 0 ls,
   y.sub ((Q.ofNat ls.length).mul lineGap), ls.length)

/-- `wrap_table_cell`: newline-joined wrapped cell text. -/
def wrap_table_cell (text : String) (colWidth fontSize : Q) : String :=
  String.intercalate "\n" (pyWrap text (wrapWidth colWidth fontSize))

/-- `draw_box`: rounded rectangle plus an optional label drawn near the
top-left corner. -/
def draw_box (x y w h : Q) (label : Option String) : List DrawOp :=
  [.roundRect x y w h] ++
    (match label with
     | some l => [.text (x.add ⟨8, 1⟩) ((y.add h).sub ⟨18, 1⟩) l]
     | none => [])

/-! ## Language labels -/

inductive Lang where
  | en
  | fr
  deriving DecidableEq, Repr

/-- The per-language label dictionary (only the keys the render code
reads; `client` and `account_address` are defined in the source but
never used). -/
structure Labels where
  invoice : String
  emitted_at : String
  due_date : String
  company : String
  bill_to : String
  payment_term : String
  payment_methods : String
  amount_excl_tax : String
  vat : String
  amount_incl_tax : String
  bank_details : String
  description : String
  unit : String
  quantity : String
  unit_price : String
  vat_col : String
  total : String
  total_incl_tax : String
  vat_note : String
  exchange_rate_note : String
  account_holder : String
  routing_number : String
  account_number : String
  account_type : String
  bank : String
  bank_address : String
  deriving DecidableEq, Repr

/-- The label dictionary for a language; `exchNote` is the value of
`config.get('exchange_rate_note', '')`.  For French the note label is
overwritten with `translateNoteFr` (source lines 178–185). -/
def labelsFor (lang : Lang) (exchNote : String) : Labels :=
  match lang with
  | .en =>
    { invoice := "Invoice"
      emitted_at := "Emitted at"
      due_date := "Due date"
      company := "Company"
      bill_to := "Bill to"
      payment_term := "Payment term:"
      payment_methods := "Payment method:"
      amount_excl_tax := "Amount excl. tax:"
      vat := "VAT:"
      amount_incl_tax := "Amount incl. tax:"
      bank_details := "Bank Account Details"
      description := "Description"
      unit := "Unit"
      quantity := "Quantity"
      unit_price := "Unit price"
      vat_col := "VAT"
      total := "Total"
      total_incl_tax := "Total incl. tax"
      vat_note := "VAT not applicable – art. 259-1 of the French Tax Code."
      exchange_rate_note := exchNote
      account_holder := "Account holder"
      routing_number := "Routing number (ACH)"
      account_number := "Account number"
      account_type := "Account type"
      bank := "Bank"
      bank_address := "Bank address" }
  | .fr =>
    { invoice := "Facture"
      emitted_at := "Émis le"
      due_date := "Date d'échéance"
      company := "Société"
      bill_to := "Client"
      payment_term := "Délai de paiement :"
      payment_methods := "Modes de paiement :"
      amount_excl_tax := "Montant HT :"
      vat := "TVA :"
      amount_incl_tax := "Montant TTC :"
      bank_details := "Coordonnées bancaires"
      description := "Description"
      unit := "Unité"
      quantity := "Quantité"
      unit_price := "Prix unitaire"
      vat_col := "TVA"
      total := "Total"
      total_incl_tax := "Total TTC"
      vat_note := "TVA non applicable – art. 259-1 du Code général des impôts."
      exchange_rate_note := translateNoteFr exchNote
      account_holder := "Titulaire du compte"
      routing_number := "Code de routage (ACH)"
      account_number := "Numéro de compte"
      account_type := "Type de compte"
      bank := "Banque"
      bank_address := "Adresse de la banque" }

/-! ## Table construction and splitting -/

/-- One table data row per service (1-based index): the wrapped
description cell, `unit` defaulting to `'Month'`, `quantity` defaulting
to `1`, `amount_usd` defaulting to `0.0`, a VAT column that is always
`unit_price * quantity * 0.0`, the line total and the total including
VAT; paired with the row height
`description_lines * (font_size + 3) + 10` at font size 8. -/
def serviceRows : Nat → List Service → List (Q × List String)
  | _, [] => []
  | i, s :: rest =>
    let descCell := wrap_table_cell (s.description.getD "") ⟨120, 1⟩ ⟨8, 1⟩
    let descLines := descCell.data.count '\n' + 1
    let qty := s.quantity.getD 1
    let unitPrice := s.amount_usd.getD ⟨0, 1⟩
    let lineTotal := unitPrice.mul ⟨qty, 1⟩
    let vatAmt := lineTotal.mul ⟨0, 1⟩
    (⟨(descLines * 11 + 10 : Nat), 1⟩,
      [toString i, descCell, s.unit.getD "Month", intStr qty,
        dollars unitPrice, dollars vatAmt, dollars lineTotal,
        dollars (lineTotal.add vatAmt)]) :: serviceRows (i + 1) rest

def headerRow (labels : Labels) : Q × List String :=
  (⟨20, 1⟩,
    ["#", labels.description, labels.unit, labels.quantity,
      labels.unit_price, labels.vat_col, labels.total,
      labels.total_incl_tax])

def sumHeights (rows : List (Q × List String)) : Q :=
  rows.foldr (fun r a => r.1.add a) ⟨0, 1⟩

/-- Maximal prefix of rows whose cumulative height stays within
`avail`, plus the remainder. -/
def splitFit (avail : Q) : Q → List (Q × List String) →
    List (Q × List String) × List (Q × List String)
  | _, [] => ([], [])
  | acc, r :: rest =>
    if Q.ble (acc.add r.1) avail then
      let p := splitFit avail (acc.add r.1) rest
      (r :: p.1, p.2)
    else ([], r :: rest)

/-- `Table.split(availWidth, availHeight)` with the default
`splitByRow` behaviour: the whole table if it fits, otherwise the
maximal fitting row prefix and the (unsplit) remainder, or no parts at
all when not even the first row fits. -/
def tableSplit (rows : List (Q × List String)) (avail : Q) : List (List (Q × List String)) :=
  if Q.ble (sumHeights rows) avail then [rows]
  else
    let p := splitFit avail ⟨0, 1⟩ rows
    if p.1.isEmpty then [] else [p.1, p.2]

/-- The drawing loop over table parts: each part after the first is
preceded by `showPage`, a redrawn border, and a reset of the vertical
cursor to the top margin; every part is drawn with its bottom at
`table_y - part_height`.  Returns the canvas and the final `table_y`. -/
def drawTableParts (c : Cv) (tableY : Q) (isFirst : Bool) :
    List (List (Q × List String)) → Cv × Q
  | [] => (c, tableY)
  | part :: rest =>
    let c1 := if isFirst then c else (c.newPage).draw [borderRect]
    let ty := if isFirst then tableY else A4height.sub pageMargin
    let h := sumHeights part
    let c2 := c1.draw
      [.tablePart pageMargin (ty.sub h) (part.map Prod.fst) (part.map Prod.snd)]
    drawTableParts c2 (ty.sub h) false rest

/-! ## The render body -/

/-- The fields `create_invoice_pdf` reads with `dict.get(key,
default)`; since the configuration is not mutated during a render,
hoisting these reads preserves the source's semantics. -/
structure GetView where
  services : List Service
  due_days : Nat
  amount_excl_tax : Q
  vat : Q
  amount_incl_tax : Q
  vat_note : String
  payment_methods : String
  exch_note : String
  bank_holder : String
  bank_routing : String
  bank_account : String
  bank_type : String
  bank_name : String
  bank_addr : String
  deriving DecidableEq, Repr

def getView (c : Config) : GetView :=
  { services := c.services
    due_days := c.invoice_due_days.getD 0
    amount_excl_tax := c.amount_excl_tax.getD ⟨0, 1⟩
    vat := c.vat.getD ⟨0, 1⟩
    amount_incl_tax := c.amount_incl_tax.getD ⟨0, 1⟩
    vat_note := c.vat_note.getD ""
    payment_methods := c.payment_methods.getD ""
    exch_note := c.exchange_rate_note.getD ""
    bank_holder := c.bank_account_holder.getD ""
    bank_routing := c.bank_routing_number.getD ""
    bank_account := c.bank_account_number.getD ""
    bank_type := c.bank_account_type.getD ""
    bank_name := c.bank_bank.getD ""
    bank_addr := c.bank_bank_address.getD "" }

/-- ` {due_days} days` / ` {due_days} jours`. -/
def paymentTermValue (lang : Lang) (dueDays : Nat) : String :=
  match lang with
  | .en => " " ++ toString dueDays ++ " days"
  | .fr => " " ++ toString dueDays ++ " jours"

/-- The payment-method cell: in French a value stripping and
lower-casing to `transfer` becomes ` Virement`; otherwise a space plus
the configured value in both languages. -/
def paymentMethodsValue (lang : Lang) (pm : String) : String :=
  match lang with
  | .fr => if pm.trim.toLower == "transfer" then " Virement" else " " ++ pm
  | .en => " " ++ pm

/-- French amounts get a leading space. -/
def frSpace (lang : Lang) (s : String) : String :=
  match lang with
  | .fr => " " ++ s
  | .en => s

/-- Wrap width of the payment/tax summary notes:
`int((width - 2*margin - 36) / (10 * 0.55))`. -/
def paymentWrapW : Nat := wrapWidth (A4width.sub ⟨96, 1⟩) ⟨10, 1⟩

/-- Wrap width basis of the bank-details lines: the full text width
`width - 2*margin` at font size 9. -/
def bankTextW : Q := A4width.sub ⟨60, 1⟩

/-- The pure page-building body of `create_invoice_pdf`, after the
direct company/receiver accesses succeeded. -/
def renderDoc (v : GetView)
    (legal business contact email phone addr siret recvName recvAddr : String)
    (invoice_id : String) (emissionDate : PyDate) (lang : Lang) : List Page :=
  let labels := labelsFor lang v.exch_note
  let dueDateStr := slashDate (addDays emissionDate v.due_days)
  -- border and header
  let c0 : Cv := ⟨[], [borderRect]⟩
  let y1 := (A4height.sub pageMargin).sub ⟨20, 1⟩
  let c1 := c0.draw [.text pageMargin y1 labels.invoice]
  let y2 := y1.sub ⟨32, 1⟩
  -- invoice info block
  let c2 := c1.draw
    [.roundRect pageMargin (y2.sub ⟨52, 1⟩) (A4width.sub ⟨60, 1⟩) ⟨60, 1⟩,
      .text (pageMargin.add ⟨12, 1⟩) (y2.sub ⟨12, 1⟩) invoice_id,
      .text (pageMargin.add ⟨12, 1⟩) (y2.sub ⟨30, 1⟩)
        (labels.emitted_at ++ ": " ++ slashDate emissionDate),
      .text (pageMargin.add ⟨12, 1⟩) (y2.sub ⟨48, 1⟩)
        (labels.due_date ++ ": " ++ dueDateStr)]
  let y3 := y2.sub ⟨70, 1⟩
  -- sender/receiver boxes
  let boxW := (A4width.sub ⟨100, 1⟩).div ⟨2, 1⟩
  let tw := boxW.sub ⟨36, 1⟩
  let sx := pageMargin.add ⟨18, 1⟩
  let ys0 := (y3.sub ⟨22, 1⟩).sub ⟨18, 1⟩
  let c3 := c2.draw (draw_box pageMargin (y3.sub ⟨190, 1⟩) boxW ⟨190, 1⟩ (some labels.company))
  let r1 := draw_wrapped_text legal sx ys0 tw ⟨11, 1⟩ ⟨18, 1⟩
  let r2 := draw_wrapped_text business sx r1.2.1 tw ⟨10, 1⟩ ⟨18, 1⟩
  let r3 := draw_wrapped_text contact sx r2.2.1 tw ⟨10, 1⟩ ⟨18, 1⟩
  let r4 := draw_wrapped_text email sx r3.2.1 tw ⟨10, 1⟩ ⟨18, 1⟩
  let r5 := draw_wrapped_text phone sx r4.2.1 tw ⟨10, 1⟩ ⟨18, 1⟩
  let r6 := draw_wrapped_text addr sx r5.2.1 tw ⟨10, 1⟩ ⟨18, 1⟩
  let r7 := draw_wrapped_text ("SIRET: " ++ siret) sx r6.2.1 tw ⟨10, 1⟩ ⟨18, 1⟩
  let c4 := ((((((c3.draw r1.1).draw r2.1).draw r3.1).draw r4.1).draw r5.1).draw r6.1).draw r7.1
  let rx := (pageMargin.add boxW).add ⟨40, 1⟩
  let rtx := rx.add ⟨18, 1⟩
  let c5 := c4.draw (draw_box rx (y3.sub ⟨190, 1⟩) boxW ⟨190, 1⟩ (some labels.bill_to))
  let s1 := draw_wrapped_text recvName rtx ys0 tw ⟨11, 1⟩ ⟨18, 1⟩
  let s2 := draw_wrapped_text recvAddr rtx s1.2.1 tw ⟨10, 1⟩ ⟨18, 1⟩
  let c6 := (c5.draw s1.1).draw s2.1
  let y4 := y3.sub ⟨220, 1⟩
  -- line-item table, split over pages when needed
  let tableRows := headerRow labels :: serviceRows 1 v.services
  let availableHeight := y4.sub ⟨230, 1⟩
  let parts := tableSplit tableRows availableHeight
  let tp := drawTableParts c6 y4 true parts
  let y5 := tp.2.sub ⟨32, 1⟩
  -- payment and tax info section, dynamically sized
  let vatSizeLines := pyWrap v.vat_note paymentWrapW
  let exchSizeLines := pyWrap v.exch_note paymentWrapW
  let nLines := 5 + vatSizeLines.length + exchSizeLines.length
  let secH : Q := ⟨(nLines * 16 + 24 : Nat), 1⟩
  let secY0 := (y5.sub secH).add ⟨20, 1⟩
  let brk := Q.blt secY0 ⟨130, 1⟩
  let c7 := if brk then (tp.1.newPage).draw [borderRect] else tp.1
  let secY :=
    if brk then (((A4height.sub pageMargin).sub ⟨32, 1⟩).sub secH).add ⟨20, 1⟩
    else secY0
  let ty0 := (secY.add secH).sub ⟨16, 1⟩
  let c8 := c7.draw
    [.roundRect pageMargin secY (A4width.sub ⟨60, 1⟩) secH,
      .text (pageMargin.add ⟨18, 1⟩) ty0 labels.payment_term,
      .text (pageMargin.add ⟨120, 1⟩) ty0 (paymentTermValue lang v.due_days),
      .text (pageMargin.add ⟨18, 1⟩) (ty0.sub ⟨16, 1⟩) labels.payment_methods,
      .text (pageMargin.add ⟨120, 1⟩) (ty0.sub ⟨16, 1⟩)
        (paymentMethodsValue lang v.payment_methods),
      .text (pageMargin.add ⟨18, 1⟩) (ty0.sub ⟨32, 1⟩) labels.amount_excl_tax,
      .text (pageMargin.add ⟨120, 1⟩) (ty0.sub ⟨32, 1⟩)
        (frSpace lang (dollars v.amount_excl_tax)),
      .text (pageMargin.add ⟨18, 1⟩) (ty0.sub ⟨48, 1⟩) labels.vat,
      .text (pageMargin.add ⟨120, 1⟩) (ty0.sub ⟨48, 1⟩)
        (frSpace lang (dollars v.vat)),
      .text (pageMargin.add ⟨18, 1⟩) (ty0.sub ⟨64, 1⟩) labels.amount_incl_tax,
      .text (pageMargin.add ⟨120, 1⟩) (ty0.sub ⟨64, 1⟩)
        (frSpace lang (dollars v.amount_incl_tax))]
  let ty1 := (ty0.sub ⟨64, 1⟩).sub ⟨20, 1⟩
  let vatNoteDrawn := match lang with | .fr => labels.vat_note | .en => v.vat_note
  let exchNoteDrawn := match lang with | .fr => labels.exchange_rate_note | .en => v.exch_note
  let vd := pyWrap vatNoteDrawn paymentWrapW
  let ed := pyWrap exchNoteDrawn paymentWrapW
  let c9 := c8.draw (drawLinesAux (pageMargin.add ⟨18, 1⟩) ty1 ⟨14, 1⟩ 0 vd)
  let ty2 := ty1.sub ((Q.ofNat vd.length).mul ⟨14, 1⟩)
  let c10 := c9.draw (drawLinesAux (pageMargin.add ⟨18, 1⟩) ty2 ⟨14, 1⟩ 0 ed)
  let y6 := secY.sub ⟨32, 1⟩
  -- bank account details section
  let brk2 := Q.blt y6 ⟨130, 1⟩
  let c11 := if brk2 then (c10.newPage).draw [borderRect] else c10
  let yb0 := if brk2 then (A4height.sub pageMargin).sub ⟨32, 1⟩ else y6
  let c12 := c11.draw [.text pageMargin yb0 labels.bank_details]
  let yb1 := yb0.sub ⟨14, 1⟩
  let b1 := draw_wrapped_text (labels.account_holder ++ ": " ++ v.bank_holder)
    pageMargin yb1 bankTextW ⟨9, 1⟩ ⟨11, 1⟩
  let b2 := draw_wrapped_text (labels.routing_number ++ ": " ++ v.bank_routing)
    pageMargin b1.2.1 bankTextW ⟨9, 1⟩ ⟨11, 1⟩
  let b3 := draw_wrapped_text (labels.account_number ++ ": " ++ v.bank_account)
    pageMargin b2.2.1 bankTextW ⟨9, 1⟩ ⟨11, 1⟩
  let b4 := draw_wrapped_text (labels.account_type ++ ": " ++ v.bank_type)
    pageMargin b3.2.1 bankTextW ⟨9, 1⟩ ⟨11, 1⟩
  let b5 := draw_wrapped_text (labels.bank ++ ": " ++ v.bank_name)
    pageMargin b4.2.1 bankTextW ⟨9, 1⟩ ⟨11, 1⟩
  let b6 := draw_wrapped_text (labels.bank_address ++ ": " ++ v.bank_addr)
    pageMargin b5.2.1 bankTextW ⟨9, 1⟩ ⟨11, 1⟩
  let c13 := (((((c12.draw b1.1).draw b2.1).draw b3.1).draw b4.1).draw b5.1).draw b6.1
  -- footer draws nothing; canvas.save()
  c13.doc

/-- `create_invoice_pdf(config, invoice_id, output_path, emission_date,
lang)`: the company and receiver fields are read with direct `dict[key]`
indexing (in this order), so a missing one raises `KeyError` and no
document is produced; everything else degrades through `.get`
defaults. -/
def create_invoice_pdf (config : Config) (invoice_id : String)
    (emissionDate : PyDate) (lang : Lang) : Except String (List Page) :=
  match config.company_legal_name, config.company_business_name,
    config.company_contact_name, config.company_email, config.company_phone,
    config.company_address, config.company_siret, config.receiver_name,
    config.receiver_address with
  | some legal, some business, some contact, some email, some phone,
      some addr, some siret, some recvName, some recvAddr =>
    .ok (renderDoc (getView config) legal business contact email phone addr
      siret recvName recvAddr invoice_id emissionDate lang)
  | none, _, _, _, _, _, _, _, _ => .error "KeyError: legal_name"
  | _, none, _, _, _, _, _, _, _ => .error "KeyError: business_name"
  | _, _, none, _, _, _, _, _, _ => .error "KeyError: contact_name"
  | _, _, _, none, _, _, _, _, _ => .error "KeyError: email"
  | _, _, _, _, none, _, _, _, _ => .error "KeyError: phone"
  | _, _, _, _, _, none, _, _, _ => .error "KeyError: address"
  | _, _, _, _, _, _, none, _, _ => .error "KeyError: siret"
  | _, _, _, _, _, _, _, none, _ => .error "KeyError: name"
  | _, _, _, _, _, _, _, _, none => .error "KeyError: address (receiver)"

/-! ## The orchestrator (`main`) -/

/-- `sum(service.get('amount_usd', 0.0) * service.get('quantity', 1)
for service in services)`. -/
def totalServices (services : List Service) : Q :=
  services.foldr
    (fun s acc => ((s.amount_usd.getD ⟨0, 1⟩).mul ⟨s.quantity.getD 1, 1⟩).add acc)
    ⟨0, 1⟩

/-- The `ValueError` message of the reconciliation check. -/
def reconMessage (total amount : Q) : String :=
  "Sum of service prices (" ++ dollars total ++
    ") does not match amount_excl_tax (" ++ dollars amount ++
    ") in config.json."

/-- The reconciliation check of `main`:
`round(total_services, 2) != round(amount_excl_tax, 2)` raises. -/
def reconciliationCheck (config : Config) : Except String Unit :=
  let total := totalServices config.services
  let amount := config.amount_excl_tax.getD ⟨0, 1⟩
  if pyRound2 total = pyRound2 amount then .ok ()
  else .error (reconMessage total amount)

/-- The month-name list of `main`, with its empty sentinel at index
zero. -/
def mesesEn : List String :=
  ["", "January", "February", "March", "April", "May", "June", "July",
    "August", "September", "October", "November", "December"]

/-- The filename computed in `main`:
`f"{nome} - {mes_en}.pdf"`, with ` fr` inserted for the French file,
joined under the fixed output directory.  `mes_en` is
`meses_en[today.month - 1]`. -/
def pdfPathFor (nome mes : String) (isFr : Bool) : String :=
  "invoices/" ++ nome ++ " - " ++ mes ++ (if isFr then " fr.pdf" else ".pdf")

namespace script

/-- `main()`: load is the `config` argument, the network is the
`outcome` oracle, `date.today()` is `today`.  Returns the written PDF
files (path and document, in order) and the configuration persisted by
`write_config`, or the error that aborted the run (no file written, no
configuration persisted). -/
def main (config : Config) (outcome : FetchOutcome) (today : PyDate) :
    Except String (List (String × List Page) × Config) :=
  match reconciliationCheck config with
  | .error e => .error e
  | .ok _ =>
    match config.invoice_last_invoice_number with
    | none => .error "KeyError: last_invoice_number"
    | some lastNumber =>
      let invoiceNumber := lastNumber + 1
      let invoiceId := generate_invoice_id today invoiceNumber
      let config2 := fetch_and_update_exchange_rate config (isoDate today) outcome
      let nome := config2.output_name.getD "Nicolas"
      let mesEn := mesesEn.getD (today.month - 1) ""
      match create_invoice_pdf config2 invoiceId today .en with
      | .error e => .error e
      | .ok docEn =>
        match create_invoice_pdf config2 invoiceId today .fr with
        | .error e => .error e
        | .ok docFr =>
          let config3 := { config2 with invoice_last_invoice_number := some invoiceNumber }
          .ok ([(pdfPathFor nome mesEn false, docEn),
                (pdfPathFor nome mesEn true, docFr)], config3)

end script

/-! ## Observation helpers and fixtures for the verification -/

/-- A document contains a drawn string somewhere. -/
def docHasText (doc : List Page) (s : String) : Prop :=
  ∃ p ∈ doc, ∃ x y, DrawOp.text x y s ∈ p

/-- An op already recorded on the canvas (on a finished page or the
page being drawn). -/
def Cv.contains (c : Cv) (op : DrawOp) : Prop :=
  (∃ p ∈ c.pages, op ∈ p) ∨ op ∈ c.cur

/-- An op on a page whose first op is the page border (a continuation
page: only pages opened by an overflow `showPage` start with the
border). -/
def Cv.onBorderPage (c : Cv) (op : DrawOp) : Prop :=
  (∃ p ∈ c.pages, p.head? = some borderRect ∧ op ∈ p) ∨
    (c.cur.head? = some borderRect ∧ op ∈ c.cur)

/-- The nine configuration fields `create_invoice_pdf` reads with
direct indexing. -/
def RequiredPresent (c : Config) : Prop :=
  c.company_legal_name.isSome = true ∧ c.company_business_name.isSome = true ∧
  c.company_contact_name.isSome = true ∧ c.company_email.isSome = true ∧
  c.company_phone.isSome = true ∧ c.company_address.isSome = true ∧
  c.company_siret.isSome = true ∧ c.receiver_name.isSome = true ∧
  c.receiver_address.isSome = true

/-- The note string drawn in the payment section for a language. -/
def noteShown (lang : Lang) (note : String) : String :=
  match lang with
  | .en => note
  | .fr => translateNoteFr note

/-- Paths of the files a run wrote (empty when the run aborted). -/
def runPaths (e : Except String (List (String × List Page) × Config)) : List String :=
  match e with
  | .ok r => r.1.map Prod.fst
  | .error _ => []

/-- Documents a run wrote. -/
def runDocs (e : Except String (List (String × List Page) × Config)) : List (List Page) :=
  match e with
  | .ok r => r.1.map Prod.snd
  | .error _ => []

/-- The error a run aborted with, if any. -/
def runError (e : Except String (List (String × List Page) × Config)) : Option String :=
  match e with
  | .ok _ => none
  | .error msg => some msg

/-- The configuration document `write_config` persisted (none when the
run aborted before the write). -/
def persistedConfig (e : Except String (List (String × List Page) × Config)) : Option Config :=
  match e with
  | .ok r => some r.2
  | .error _ => none

/-- The sequence number in the persisted configuration. -/
def lastNumberOf (e : Except String (List (String × List Page) × Config)) : Option Nat :=
  match e with
  | .ok r => r.2.invoice_last_invoice_number
  | .error _ => none

/-- The row-height lists of all table segments drawn in a rendered
document. -/
def tableSegments (e : Except String (List Page)) : List (List Q) :=
  match e with
  | .ok doc =>
    doc.flatMap (fun p => p.filterMap (fun op =>
      match op with
      | .tablePart _ _ hs _ => some hs
      | _ => none))
  | .error _ => []

def segHeight (hs : List Q) : Q := hs.foldr Q.add ⟨0, 1⟩

/-- The vertical space available to the table on the first page
(`y - (margin + 200)` at the point of the split; the section heights
above the table are constants of the layout). -/
def tableAvailHeight : Q :=
  (((((A4height.sub pageMargin).sub ⟨20, 1⟩).sub ⟨32, 1⟩).sub ⟨70, 1⟩).sub
    ⟨220, 1⟩).sub ⟨230, 1⟩

/-- The vertical cursor position a continuation table segment restarts
from. -/
def tableTopY : Q := A4height.sub pageMargin

/-- The table data (header row plus one row per service) built by the
render for a configuration and language. -/
def tableRowsFor (v : GetView) (lang : Lang) : List (Q × List String) :=
  headerRow (labelsFor lang v.exch_note) :: serviceRows 1 v.services

/-- Number of pages of a rendered document (0 when rendering failed). -/
def pagesOf (e : Except String (List Page)) : Nat :=
  match e with
  | .ok doc => doc.length
  | .error _ => 0

/-- Words preserved by wrapping: the claim that the wrapped lines of a
text are obtained by breaking the text at whitespace only, losing no
(non-whitespace) characters. -/
def wrapWordsPreserved (text : String) (w : Nat) : Prop :=
  (pyWrap text w).flatMap (fun l => lineWords l.data) = textWords text

/-- Alternating, nonempty, uniform chunk lists: the shape invariant of
the `textwrap` chunk sequence. -/
def uniformChunk (c : List Char) : Prop :=
  (∀ x ∈ c, x = ' ') ∨ (∀ x ∈ c, x ≠ ' ')

def ChunksOK (cs : List (List Char)) : Prop :=
  (∀ c ∈ cs, c ≠ [] ∧ uniformChunk c) ∧
    cs.Chain' (fun a b => isWSChunk a ≠ isWSChunk b)

/-- The trailing-whitespace drop performed on a finished line of the
wrap loop (named here to state the loop's step equations). -/
def trimWS (cur : List (List Char)) : List (List Char) :=
  match cur.getLast? with
  | some lastChunk => if isWSChunk lastChunk then cur.dropLast else cur
  | none => cur

/-- Appending a finished line to the accumulated lines, skipping empty
lines (named here to state the loop's step equations). -/
def addLine (lines : List (List Char)) (cur3 : List (List Char)) : List (List Char) :=
  if cur3.isEmpty then lines else lines ++ [cur3.flatten]

/-! ### Concrete fixtures -/

/-- A complete, reconciling configuration (one service of 5000 USD). -/
def cfgDemo : Config :=
  { company_legal_name := some "ACME SARL"
    company_business_name := some "ACME"
    company_contact_name := some "Jane Doe"
    company_email := some "jane@acme.example"
    company_phone := some "+33 1 23 45 67 89"
    company_address := some "1 rue de la Paix, 75002 Paris, France"
    company_siret := some "12345678901234"
    receiver_name := some "Example Corp"
    receiver_address := some "500 Main Street, Springfield"
    services := [⟨some "Consulting services", some "Month", some 1, some ⟨500000, 100⟩⟩]
    invoice_due_days := some 10
    invoice_last_invoice_number := some 7
    amount_excl_tax := some ⟨500000, 100⟩
    vat := some ⟨0, 1⟩
    amount_incl_tax := some ⟨500000, 100⟩
    vat_note := some "VAT not applicable"
    payment_methods := some "Transfer"
    bank_account_holder := some "ACME SARL"
    bank_routing_number := some "026009593"
    bank_account_number := some "1234567890"
    bank_account_type := some "Checking"
    bank_bank := some "Big Bank"
    bank_bank_address := some "100 Bank Plaza, NYC"
    output_name := some "Nicolas"
    exchange_rate := none
    exchange_rate_note := none }

/-- `cfgDemo` with a total within 0.01 of `amount_excl_tax` but with a
different 2-decimal rounding: the services sum to 0.00, the stated
total is 0.006 (rounds to 0.01). -/
def cfgSkew : Config :=
  { cfgDemo with
    services := [⟨some "Free tier", some "Month", some 1, some ⟨0, 1⟩⟩]
    amount_excl_tax := some ⟨6, 1000⟩ }

/-- `cfgDemo` with the company legal name absent. -/
def cfgNoLegal : Config := { cfgDemo with company_legal_name := none }

/-- A one-line service repeated sixty times: the table needs three
pages' worth of rows. -/
def cfgBig : Config :=
  { cfgDemo with
    services := List.replicate 60 ⟨some "Work", some "Month", some 1, some ⟨2000, 100⟩⟩
    amount_excl_tax := some ⟨120000, 100⟩
    amount_incl_tax := some ⟨120000, 100⟩ }

/-- A two-date rate series (the spec's own example): rates two and five
days before the requested date. -/
def seriesDemo : List (String × Q) :=
  [("2024-12-14", ⟨105, 100⟩), ("2024-12-11", ⟨104, 100⟩)]

/-- `Except` equality is decidable componentwise (needed to evaluate
concrete runs). -/
instance (priority := low) {ε α : Type} [DecidableEq ε] [DecidableEq α] :
    DecidableEq (Except ε α) := fun a b =>
  match a, b with
  | .ok x, .ok y => if h : x = y then isTrue (by rw [h]) else isFalse (by simp [h])
  | .error x, .error y => if h : x = y then isTrue (by rw [h]) else isFalse (by simp [h])
  | .ok _, .error _ => isFalse (by simp)
  | .error _, .ok _ => isFalse (by simp)

instance (c : Config) : Decidable (RequiredPresent c) := by
  unfold RequiredPresent; infer_instance

/-! # Theorems -/

set_option maxRecDepth 40000 in
/-- C4: the output files of a run do not carry the current month's
English name: `meses_en[today.month - 1]` selects the list's previous
entry, so a January run (month 1) hits the empty sentinel and produces
`"Nicolas - .pdf"`, and a May run (month 5) would produce `"April"`
although the list itself stores `"May"` at index 5. -/
theorem c4_month_name_bug :
    runPaths (script.main cfgDemo (.failure "net down") ⟨2025, 1, 15⟩) =
      ["invoices/Nicolas - .pdf", "invoices/Nicolas -  fr.pdf"]
    ∧ mesesEn.getD (1 - 1) "" = ""
    ∧ mesesEn.getD (5 - 1) "" = "April"
    ∧ mesesEn.getD 5 "" = "May" := by decide

set_option maxRecDepth 40000 in
/-- C1 (counterexample): a configuration whose services sum (0.00) is
within 0.01 of the stated `amount_excl_tax` (0.006) still fails the
reconciliation check, because the code compares the two values rounded
to two decimals (`0.00 ≠ 0.01`) rather than their distance; the run
aborts with the reconciliation message, writes nothing and persists
nothing. -/
theorem c1_counterexample :
    Q.le (Q.abs ((totalServices cfgSkew.services).sub
        (cfgSkew.amount_excl_tax.getD ⟨0, 1⟩))) ⟨1, 100⟩
    ∧ runError (script.main cfgSkew (.failure "network unreachable") ⟨2025, 3, 7⟩) =
        some (reconMessage (totalServices cfgSkew.services)
          (cfgSkew.amount_excl_tax.getD ⟨0, 1⟩))
    ∧ runPaths (script.main cfgSkew (.failure "network unreachable") ⟨2025, 3, 7⟩) = []
    ∧ persistedConfig (script.main cfgSkew (.failure "network unreachable") ⟨2025, 3, 7⟩) =
        none := by decide

/-- C1 (amended): the reconciliation check passes exactly when the
services total and `amount_excl_tax` agree after rounding each to two
decimals (half-to-even); on disagreement `main` aborts immediately with
the `ValueError` message naming both formatted values (so no file is
written and no sequence number is persisted), and any run that returns
outputs passed the check. -/
theorem c1_reconciliation (cfg : Config) (outcome : FetchOutcome) (today : PyDate) :
    (pyRound2 (totalServices cfg.services) = pyRound2 (cfg.amount_excl_tax.getD ⟨0, 1⟩) ↔
      reconciliationCheck cfg = .ok ())
    ∧ (pyRound2 (totalServices cfg.services) ≠ pyRound2 (cfg.amount_excl_tax.getD ⟨0, 1⟩) →
        script.main cfg outcome today =
          .error (reconMessage (totalServices cfg.services)
            (cfg.amount_excl_tax.getD ⟨0, 1⟩)))
    ∧ (∀ outs cfg', script.main cfg outcome today = .ok (outs, cfg') →
        pyRound2 (totalServices cfg.services) = pyRound2 (cfg.amount_excl_tax.getD ⟨0, 1⟩))
    ∧ reconMessage (totalServices cfg.services) (cfg.amount_excl_tax.getD ⟨0, 1⟩) =
        "Sum of service prices (" ++ dollars (totalServices cfg.services) ++
          ") does not match amount_excl_tax (" ++
          dollars (cfg.amount_excl_tax.getD ⟨0, 1⟩) ++ ") in config.json." := by
  refine ⟨⟨fun h => ?_, fun h => ?_⟩, fun h => ?_, fun outs cfg' h => ?_, rfl⟩
  · simp [reconciliationCheck, h]
  · by_contra hne
    simp [reconciliationCheck, hne] at h
  · simp [script.main, reconciliationCheck, h]
  · by_contra hne
    simp [script.main, reconciliationCheck, hne] at h

/-- C1 (witness): the amended theorem applied to the reconciling
`cfgDemo` and to the skewed `cfgSkew`. -/
theorem c1_reconciliation_witness :
    reconciliationCheck cfgDemo = .ok ()
    ∧ script.main cfgSkew (.failure "x") ⟨2025, 3, 7⟩ =
        .error (reconMessage (totalServices cfgSkew.services)
          (cfgSkew.amount_excl_tax.getD ⟨0, 1⟩)) :=
  ⟨(c1_reconciliation cfgDemo (.failure "x") ⟨2025, 3, 7⟩).1.mp (by decide),
   (c1_reconciliation cfgSkew (.failure "x") ⟨2025, 3, 7⟩).2.1 (by decide)⟩

set_option maxRecDepth 40000 in
/-- C5 (counterexample): a missing company field does not degrade to an
empty string — `config['company']['legal_name']` raises `KeyError`, so
rendering fails and the whole run aborts. -/
theorem c5_counterexample :
    create_invoice_pdf cfgNoLegal "N° #15-01-2025-08" ⟨2025, 1, 15⟩ .en =
      .error "KeyError: legal_name"
    ∧ runError (script.main cfgNoLegal (.failure "net down") ⟨2025, 1, 15⟩) =
        some "KeyError: legal_name" := by decide

/-- C5 (amended): only the bank-detail fields (read through
`dict.get(key, '')`) degrade to an empty string: for each of the six
bank fields, rendering with the field absent produces exactly the
document obtained with the field set to the empty string (so only that
field's own wrapped text changes), and rendering never fails as long as
the directly-indexed company and receiver fields are present.  (Missing
company or receiver fields raise instead — see the counterexample.) -/
theorem c5_missing_fields (cfg : Config) (id : String) (d : PyDate) (lang : Lang) :
    (create_invoice_pdf { cfg with bank_account_holder := none } id d lang =
      create_invoice_pdf { cfg with bank_account_holder := some "" } id d lang)
    ∧ (create_invoice_pdf { cfg with bank_routing_number := none } id d lang =
      create_invoice_pdf { cfg with bank_routing_number := some "" } id d lang)
    ∧ (create_invoice_pdf { cfg with bank_account_number := none } id d lang =
      create_invoice_pdf { cfg with bank_account_number := some "" } id d lang)
    ∧ (create_invoice_pdf { cfg with bank_account_type := none } id d lang =
      create_invoice_pdf { cfg with bank_account_type := some "" } id d lang)
    ∧ (create_invoice_pdf { cfg with bank_bank := none } id d lang =
      create_invoice_pdf { cfg with bank_bank := some "" } id d lang)
    ∧ (create_invoice_pdf { cfg with bank_bank_address := none } id d lang =
      create_invoice_pdf { cfg with bank_bank_address := some "" } id d lang)
    ∧ (RequiredPresent cfg → (create_invoice_pdf cfg id d lang).isOk = true) := by
  refine ⟨?_, ?_, ?_, ?_, ?_, ?_, fun hreq => ?_⟩
  · have h : getView { cfg with bank_account_holder := none } =
        getView { cfg with bank_account_holder := some "" } := by simp [getView]
    simp only [create_invoice_pdf, h]
  · have h : getView { cfg with bank_routing_number := none } =
        getView { cfg with bank_routing_number := some "" } := by simp [getView]
    simp only [create_invoice_pdf, h]
  · have h : getView { cfg with bank_account_number := none } =
        getView { cfg with bank_account_number := some "" } := by simp [getView]
    simp only [create_invoice_pdf, h]
  · have h : getView { cfg with bank_account_type := none } =
        getView { cfg with bank_account_type := some "" } := by simp [getView]
    simp only [create_invoice_pdf, h]
  · have h : getView { cfg with bank_bank := none } =
        getView { cfg with bank_bank := some "" } := by simp [getView]
    simp only [create_invoice_pdf, h]
  · have h : getView { cfg with bank_bank_address := none } =
        getView { cfg with bank_bank_address := some "" } := by simp [getView]
    simp only [create_invoice_pdf, h]
  · obtain ⟨h1, h2, h3, h4, h5, h6, h7, h8, h9⟩ := hreq
    obtain ⟨v1, e1⟩ := Option.isSome_iff_exists.mp h1
    obtain ⟨v2, e2⟩ := Option.isSome_iff_exists.mp h2
    obtain ⟨v3, e3⟩ := Option.isSome_iff_exists.mp h3
    obtain ⟨v4, e4⟩ := Option.isSome_iff_exists.mp h4
    obtain ⟨v5, e5⟩ := Option.isSome_iff_exists.mp h5
    obtain ⟨v6, e6⟩ := Option.isSome_iff_exists.mp h6
    obtain ⟨v7, e7⟩ := Option.isSome_iff_exists.mp h7
    obtain ⟨v8, e8⟩ := Option.isSome_iff_exists.mp h8
    obtain ⟨v9, e9⟩ := Option.isSome_iff_exists.mp h9
    simp [create_invoice_pdf, e1, e2, e3, e4, e5, e6, e7, e8, e9, Except.isOk,
      Except.toBool]

set_option maxRecDepth 40000 in
/-- C5 (witness): the substitution equalities and the soft success on
the complete demo configuration. -/
theorem c5_missing_fields_witness :
    (create_invoice_pdf { cfgDemo with bank_account_holder := none }
        "N° #15-01-2025-08" ⟨2025, 1, 15⟩ .en =
      create_invoice_pdf { cfgDemo with bank_account_holder := some "" }
        "N° #15-01-2025-08" ⟨2025, 1, 15⟩ .en)
    ∧ (create_invoice_pdf cfgDemo "N° #15-01-2025-08" ⟨2025, 1, 15⟩ .en).isOk = true :=
  ⟨(c5_missing_fields cfgDemo "N° #15-01-2025-08" ⟨2025, 1, 15⟩ .en).1,
   (c5_missing_fields cfgDemo "N° #15-01-2025-08" ⟨2025, 1, 15⟩ .en).2.2.2.2.2.2
     (by decide)⟩

/-- `fetch_and_update_exchange_rate` only ever touches the two
exchange-rate fields: every branch returns the input configuration
with `exchange_rate` and `exchange_rate_note` replaced. -/
lemma fetch_shape (cfg : Config) (s : String) (o : FetchOutcome) :
    ∃ r note, fetch_and_update_exchange_rate cfg s o =
      { cfg with exchange_rate := r, exchange_rate_note := some note } := by
  cases o with
  | failure msg => exact ⟨none, fetchFailureNote msg, rfl⟩
  | series data =>
    simp only [fetch_and_update_exchange_rate]
    split
    · exact ⟨_, _, rfl⟩
    · split
      · exact ⟨_, _, rfl⟩
      · split
        · exact ⟨_, _, rfl⟩
        · exact ⟨none, _, rfl⟩

/-- C7: a successful run persists the loaded configuration with only
`exchange_rate`, `exchange_rate_note` and the incremented
`invoice.last_invoice_number` changed (every other field is returned
unchanged), and a configuration is persisted only when both language
renders succeeded — if either render fails, nothing is persisted. -/
theorem c7_persisted_frame (cfg : Config) (outcome : FetchOutcome) (today : PyDate) :
    (∀ cfg', persistedConfig (script.main cfg outcome today) = some cfg' →
      cfg'.company_legal_name = cfg.company_legal_name ∧
      cfg'.company_business_name = cfg.company_business_name ∧
      cfg'.company_contact_name = cfg.company_contact_name ∧
      cfg'.company_email = cfg.company_email ∧
      cfg'.company_phone = cfg.company_phone ∧
      cfg'.company_address = cfg.company_address ∧
      cfg'.company_siret = cfg.company_siret ∧
      cfg'.receiver_name = cfg.receiver_name ∧
      cfg'.receiver_address = cfg.receiver_address ∧
      cfg'.services = cfg.services ∧
      cfg'.invoice_due_days = cfg.invoice_due_days ∧
      cfg'.amount_excl_tax = cfg.amount_excl_tax ∧
      cfg'.vat = cfg.vat ∧
      cfg'.amount_incl_tax = cfg.amount_incl_tax ∧
      cfg'.vat_note = cfg.vat_note ∧
      cfg'.payment_methods = cfg.payment_methods ∧
      cfg'.bank_account_holder = cfg.bank_account_holder ∧
      cfg'.bank_routing_number = cfg.bank_routing_number ∧
      cfg'.bank_account_number = cfg.bank_account_number ∧
      cfg'.bank_account_type = cfg.bank_account_type ∧
      cfg'.bank_bank = cfg.bank_bank ∧
      cfg'.bank_bank_address = cfg.bank_bank_address ∧
      cfg'.output_name = cfg.output_name ∧
      (∀ last, cfg.invoice_last_invoice_number = some last →
        cfg'.invoice_last_invoice_number = some (last + 1)))
    ∧ (∀ last, cfg.invoice_last_invoice_number = some last →
        ((create_invoice_pdf (fetch_and_update_exchange_rate cfg (isoDate today) outcome)
            (generate_invoice_id today (last + 1)) today .en).isOk = false ∨
          (create_invoice_pdf (fetch_and_update_exchange_rate cfg (isoDate today) outcome)
            (generate_invoice_id today (last + 1)) today .fr).isOk = false) →
        persistedConfig (script.main cfg outcome today) = none) := by
  obtain ⟨r, note, hfetch⟩ := fetch_shape cfg (isoDate today) outcome
  constructor
  · intro cfg' h
    cases hrc : reconciliationCheck cfg with
    | error e => simp [script.main, hrc, persistedConfig] at h
    | ok u =>
      cases hlast : cfg.invoice_last_invoice_number with
      | none => simp [script.main, hrc, hlast, persistedConfig] at h
      | some last =>
        cases hen : create_invoice_pdf
            (fetch_and_update_exchange_rate cfg (isoDate today) outcome)
            (generate_invoice_id today (last + 1)) today .en with
        | error e => simp [script.main, hrc, hlast, hen, persistedConfig] at h
        | ok docEn =>
          cases hfr : create_invoice_pdf
              (fetch_and_update_exchange_rate cfg (isoDate today) outcome)
              (generate_invoice_id today (last + 1)) today .fr with
          | error e => simp [script.main, hrc, hlast, hen, hfr, persistedConfig] at h
          | ok docFr =>
            simp only [script.main, hrc, hlast, hen, hfr, persistedConfig,
              Option.some.injEq] at h
            subst h
            rw [hfetch]
            refine ⟨rfl, rfl, rfl, rfl, rfl, rfl, rfl, rfl, rfl, rfl, rfl, rfl,
              rfl, rfl, rfl, rfl, rfl, rfl, rfl, rfl, rfl, rfl, rfl, ?_⟩
            intro last' hlast'
            cases hlast'
            rfl
  · intro last hlast hbad
    cases hrc : reconciliationCheck cfg with
    | error e => simp [script.main, hrc, persistedConfig]
    | ok u =>
      cases hen : create_invoice_pdf
          (fetch_and_update_exchange_rate cfg (isoDate today) outcome)
          (generate_invoice_id today (last + 1)) today .en with
      | error e => simp [script.main, hrc, hlast, hen, persistedConfig]
      | ok docEn =>
        cases hfr : create_invoice_pdf
            (fetch_and_update_exchange_rate cfg (isoDate today) outcome)
            (generate_invoice_id today (last + 1)) today .fr with
        | error e => simp [script.main, hrc, hlast, hen, hfr, persistedConfig]
        | ok docFr =>
          rcases hbad with hbad | hbad
          · rw [hen] at hbad
            simp [Except.isOk, Except.toBool] at hbad
          · rw [hfr] at hbad
            simp [Except.isOk, Except.toBool] at hbad

set_option maxRecDepth 40000 in
/-- C7 (witness): a successful demo run persists the configuration
with the demo's own `output_name` and the incremented sequence
number 8. -/
theorem c7_persisted_frame_witness :
    (persistedConfig (script.main cfgDemo (.failure "down") ⟨2025, 1, 15⟩)).map
        Config.output_name = some (some "Nicolas")
    ∧ (persistedConfig (script.main cfgDemo (.failure "down") ⟨2025, 1, 15⟩)).map
        Config.invoice_last_invoice_number = some (some 8) := by
  have hs : (persistedConfig (script.main cfgDemo (.failure "down")
      ⟨2025, 1, 15⟩)).isSome = true := by decide
  obtain ⟨cfg', hc⟩ := Option.isSome_iff_exists.mp hs
  obtain ⟨h1, h2, h3, h4, h5, h6, h7, h8, h9, h10, h11, h12, h13, h14, h15, h16,
    h17, h18, h19, h20, h21, h22, h23, h24⟩ :=
    (c7_persisted_frame cfgDemo (.failure "down") ⟨2025, 1, 15⟩).1 cfg' hc
  rw [hc]
  refine ⟨?_, ?_⟩
  · rw [Option.map_some', h23]
    rfl
  · rw [Option.map_some', h24 7 rfl]

/-! ### Order lemmas for the lexicographic string comparison -/

lemma strLtChars_cons (a b : Char) (as bs : List Char) :
    strLtChars (a :: as) (b :: bs) =
      if a.val < b.val then true
      else if b.val < a.val then false
      else strLtChars as bs := rfl

lemma charEq_of_not_lt {a b : Char} (h1 : ¬ a.val < b.val) (h2 : ¬ b.val < a.val) :
    a = b :=
  Char.ext (UInt32.ext (Nat.le_antisymm (Nat.not_lt.mp h2) (Nat.not_lt.mp h1)))

lemma ultIrrefl (a : UInt32) : ¬ a < a := fun h => Nat.lt_irrefl a.toNat h

lemma ultTrans {a b c : UInt32} (h1 : a < b) (h2 : b < c) : a < c :=
  Nat.lt_trans h1 h2

lemma ultAsymm {a b : UInt32} (h : a < b) : ¬ b < a :=
  fun h2 => Nat.lt_irrefl a.toNat (Nat.lt_trans h1 h2) where h1 := h

lemma strLtChars_irrefl : ∀ l : List Char, strLtChars l l = false
  | [] => rfl
  | a :: as => by
    rw [strLtChars_cons, if_neg (ultIrrefl a.val), if_neg (ultIrrefl a.val)]
    exact strLtChars_irrefl as

lemma strLtChars_trichotomy : ∀ a b : List Char,
    strLtChars a b = true ∨ strLtChars b a = true ∨ a = b
  | [], [] => Or.inr (Or.inr rfl)
  | [], _ :: _ => Or.inl rfl
  | _ :: _, [] => Or.inr (Or.inl rfl)
  | a :: as, b :: bs => by
    by_cases hab : a.val < b.val
    · left; rw [strLtChars_cons, if_pos hab]
    · by_cases hba : b.val < a.val
      · right; left; rw [strLtChars_cons, if_pos hba]
      · have hb : a = b := charEq_of_not_lt hab hba
        subst hb
        rcases strLtChars_trichotomy as bs with h | h | h
        · left; rw [strLtChars_cons, if_neg hab, if_neg hab]; exact h
        · right; left; rw [strLtChars_cons, if_neg hab, if_neg hab]; exact h
        · right; right; rw [h]

lemma strLtChars_asymm : ∀ a b : List Char,
    strLtChars a b = true → strLtChars b a = false
  | [], [] => fun h => by cases h
  | [], _ :: _ => fun _ => rfl
  | _ :: _, [] => fun h => by cases h
  | a :: as, b :: bs => by
    intro h
    by_cases hab : a.val < b.val
    · rw [strLtChars_cons, if_neg (ultAsymm hab), if_pos hab]
    · by_cases hba : b.val < a.val
      · rw [strLtChars_cons, if_neg hab, if_pos hba] at h
        cases h
      · have hb : a = b := charEq_of_not_lt hab hba
        subst hb
        rw [strLtChars_cons, if_neg hab, if_neg hab] at h ⊢
        exact strLtChars_asymm as bs h

lemma strLtChars_trans : ∀ a b c : List Char,
    strLtChars a b = true → strLtChars b c = true → strLtChars a c = true
  | [], [], _ => fun h _ => by cases h
  | [], _ :: _, [] => fun _ h => by cases h
  | [], _ :: _, _ :: _ => fun _ _ => rfl
  | _ :: _, [], _ => fun h _ => by cases h
  | _ :: _, _ :: _, [] => fun _ h => by cases h
  | a :: as, b :: bs, c :: cs => by
    intro h1 h2
    by_cases hab : a.val < b.val
    · by_cases hbc : b.val < c.val
      · rw [strLtChars_cons, if_pos (ultTrans hab hbc)]
      · by_cases hcb : c.val < b.val
        · rw [strLtChars_cons, if_neg hbc, if_pos hcb] at h2
          cases h2
        · have hb : b = c := charEq_of_not_lt hbc hcb
          subst hb
          rw [strLtChars_cons, if_pos hab]
    · by_cases hba : b.val < a.val
      · rw [strLtChars_cons, if_neg hab, if_pos hba] at h1
        cases h1
      · have ha : a = b := charEq_of_not_lt hab hba
        subst ha
        rw [strLtChars_cons, if_neg hab, if_neg hab] at h1
        by_cases hac : a.val < c.val
        · rw [strLtChars_cons, if_pos hac]
        · by_cases hca : c.val < a.val
          · rw [strLtChars_cons, if_neg hac, if_pos hca] at h2
            cases h2
          · have hc : a = c := charEq_of_not_lt hac hca
            subst hc
            rw [strLtChars_cons, if_neg hac, if_neg hac] at h2 ⊢
            exact strLtChars_trans as bs cs h1 h2

lemma pyStrLe_refl (a : String) : pyStrLe a a = true := by
  simp [pyStrLe, strLtChars_irrefl]

lemma pyStrLt_asymm {a b : String} (h : pyStrLt a b = true) : pyStrLt b a = false :=
  strLtChars_asymm _ _ h

lemma strEq_of_data_eq {a b : String} (h : a.data = b.data) : a = b := by
  cases a
  cases b
  cases h
  rfl

/-- Characterisation: `a ≤ b` iff `a < b` or the strings are equal. -/
lemma pyStrLe_iff {a b : String} :
    pyStrLe a b = true ↔ pyStrLt a b = true ∨ a = b := by
  constructor
  · intro h
    have hba : strLtChars b.data a.data = false := by
      simpa [pyStrLe] using h
    rcases strLtChars_trichotomy a.data b.data with h' | h' | h'
    · exact Or.inl h'
    · rw [h'] at hba; cases hba
    · exact Or.inr (strEq_of_data_eq h')
  · intro h
    rcases h with h | h
    · simp [pyStrLe, strLtChars_asymm _ _ h]
    · subst h; exact pyStrLe_refl a

lemma pyStrLe_total {a b : String} (h : pyStrLe a b = false) : pyStrLe b a = true := by
  rcases strLtChars_trichotomy b.data a.data with h' | h' | h'
  · exact pyStrLe_iff.mpr (Or.inl h')
  · have hba : strLtChars b.data a.data = true := by
      simpa [pyStrLe] using h
    rw [strLtChars_asymm _ _ h'] at hba
    cases hba
  · exact pyStrLe_iff.mpr (Or.inr (strEq_of_data_eq h'))

lemma pyStrLe_trans {a b c : String} (h1 : pyStrLe a b = true)
    (h2 : pyStrLe b c = true) : pyStrLe a c = true := by
  rcases pyStrLe_iff.mp h1 with h1' | h1'
  · rcases pyStrLe_iff.mp h2 with h2' | h2'
    · exact pyStrLe_iff.mpr (Or.inl (strLtChars_trans _ _ _ h1' h2'))
    · subst h2'; exact h1
  · subst h1'; exact h2

lemma pyStrLt_of_le_ne {a b : String} (h : pyStrLe a b = true) (hne : a ≠ b) :
    pyStrLt a b = true := by
  rcases pyStrLe_iff.mp h with h' | h'
  · exact h'
  · exact absurd h' hne

lemma pyStrLe_of_lt {a b : String} (h : pyStrLt a b = true) : pyStrLe a b = true :=
  pyStrLe_iff.mpr (Or.inl h)

/-! ### Sorting and dictionary-lookup lemmas -/

lemma mem_insertLe {a x : String} : ∀ l : List String,
    (a ∈ insertLe x l ↔ a = x ∨ a ∈ l)
  | [] => by simp [insertLe]
  | y :: ys => by
    by_cases h : pyStrLe x y = true
    · simp [insertLe, h]
    · rw [insertLe, if_neg h, List.mem_cons, mem_insertLe ys, List.mem_cons]
      tauto

lemma mem_sortLe {a : String} : ∀ l : List String, (a ∈ sortLe l ↔ a ∈ l)
  | [] => Iff.rfl
  | x :: xs => by
    rw [sortLe, mem_insertLe, mem_sortLe xs, List.mem_cons]

lemma sortLe_eq_nil_iff : ∀ l : List String, sortLe l = [] ↔ l = []
  | [] => by simp [sortLe]
  | x :: xs => by
    constructor
    · intro h
      have : x ∈ sortLe (x :: xs) := (mem_sortLe _).mpr (List.mem_cons_self x xs)
      rw [h] at this
      cases this
    · intro h; cases h

lemma insertLe_pairwise {x : String} : ∀ {l : List String},
    l.Pairwise (fun a b => pyStrLe a b = true) →
    (insertLe x l).Pairwise (fun a b => pyStrLe a b = true)
  | [], _ => by simp [insertLe]
  | y :: ys, h => by
    rcases List.pairwise_cons.mp h with ⟨hy, hys⟩
    by_cases hxy : pyStrLe x y = true
    · rw [insertLe, if_pos hxy]
      refine List.pairwise_cons.mpr ⟨?_, h⟩
      intro b hb
      rcases List.mem_cons.mp hb with rfl | hb
      · exact hxy
      · exact pyStrLe_trans hxy (hy b hb)
    · rw [insertLe, if_neg hxy]
      refine List.pairwise_cons.mpr ⟨?_, insertLe_pairwise hys⟩
      intro b hb
      rcases (mem_insertLe ys).mp hb with rfl | hb
      · exact pyStrLe_total (Bool.not_eq_true _ ▸ (by simpa using hxy))
      · exact hy b hb

lemma sortLe_pairwise : ∀ l : List String,
    (sortLe l).Pairwise (fun a b => pyStrLe a b = true)
  | [] => List.Pairwise.nil
  | _ :: xs => insertLe_pairwise (sortLe_pairwise xs)

lemma getLast?_mem' {α : Type} : ∀ {l : List α} {m : α}, l.getLast? = some m → m ∈ l
  | [], _ => fun h => by cases h
  | [a], _ => fun h => by
    simp only [List.getLast?_singleton, Option.some.injEq] at h
    simp [h]
  | a :: b :: t, m => fun h => by
    rw [List.getLast?_cons_cons] at h
    exact List.mem_cons_of_mem a (getLast?_mem' h)

lemma pairwise_getLast_max : ∀ {l : List String},
    l.Pairwise (fun a b => pyStrLe a b = true) →
    ∀ {m : String}, l.getLast? = some m → ∀ a ∈ l, pyStrLe a m = true
  | [], _, _ => fun h => by cases h
  | [x], _, m => fun h a ha => by
    simp only [List.getLast?_singleton, Option.some.injEq] at h
    rcases List.mem_singleton.mp ha with rfl
    rw [← h]
    exact pyStrLe_refl a
  | x :: y :: t, hp, m => fun h a ha => by
    rw [List.getLast?_cons_cons] at h
    rcases List.pairwise_cons.mp hp with ⟨hx, hp'⟩
    rcases List.mem_cons.mp ha with rfl | ha'
    · exact pyStrLe_trans (hx y (List.mem_cons_self y t))
        (pairwise_getLast_max hp' h y (List.mem_cons_self y t))
    · exact pairwise_getLast_max hp' h a ha'

lemma lookupRate_eq_some {data : List (String × Q)} {k : String} {v : Q}
    (hnd : (data.map Prod.fst).Nodup) (hmem : (k, v) ∈ data) :
    lookupRate data k = some v := by
  induction data with
  | nil => cases hmem
  | cons p rest ih =>
    rcases List.mem_cons.mp hmem with rfl | hmem'
    · simp [lookupRate]
    · have hnd' := hnd
      rw [List.map_cons, List.nodup_cons] at hnd'
      have hne : ¬p.1 = k := fun he => hnd'.1
        (he ▸ List.mem_map.mpr ⟨(k, v), hmem', rfl⟩)
      have ih' := ih hnd'.2 hmem'
      simp only [lookupRate] at ih' ⊢
      rw [List.find?_cons_of_neg _ (by simpa using hne)]
      exact ih'

lemma lookupRate_none_iff {data : List (String × Q)} {k : String} :
    lookupRate data k = none ↔ k ∉ data.map Prod.fst := by
  constructor
  · intro h hk
    rcases List.mem_map.mp hk with ⟨p, hp, hpk⟩
    simp only [lookupRate, Option.map_eq_none', List.find?_eq_none] at h
    exact absurd (by simpa using hpk) (by simpa using h p hp)
  · intro h
    simp only [lookupRate, Option.map_eq_none', List.find?_eq_none]
    intro p hp
    simp only [beq_iff_eq]
    exact fun he => h (List.mem_map.mpr ⟨p, hp, he⟩)

lemma mem_keys_exists_rate {data : List (String × Q)} {k : String}
    (h : k ∈ data.map Prod.fst) : ∃ r, (k, r) ∈ data := by
  rcases List.mem_map.mp h with ⟨p, hp, hpk⟩
  exact ⟨p.2, by rwa [← hpk, Prod.mk.eta]⟩

/-- C2: rate selection follows exactly the three-step fallback order of
`fetch_and_update_exchange_rate`: (1) a rate published for the
requested date is used with the exact-date note; (2) otherwise the rate
of the latest published date strictly before the requested date is
used, and the note records both that date and the originally requested
date; (3) otherwise (no published date at or before the requested date,
series nonempty) the rate of the most recent published date overall is
used, and the note says no rate was available for or before the
requested date. -/
theorem c2_rate_selection (cfg : Config) (data : List (String × Q)) (s : String)
    (hnd : (data.map Prod.fst).Nodup) :
    (∀ r, (s, r) ∈ data →
      (fetch_and_update_exchange_rate cfg s (.series data)).exchange_rate = some r ∧
      (fetch_and_update_exchange_rate cfg s (.series data)).exchange_rate_note =
        some (exactNote r s))
    ∧ (lookupRate data s = none →
      ∀ d₀ ∈ data.map Prod.fst, pyStrLt d₀ s = true →
      ∃ fd r, fd ∈ data.map Prod.fst ∧ pyStrLt fd s = true ∧
        (∀ d ∈ data.map Prod.fst, pyStrLt d s = true → pyStrLe d fd = true) ∧
        (fd, r) ∈ data ∧
        (fetch_and_update_exchange_rate cfg s (.series data)).exchange_rate = some r ∧
        (fetch_and_update_exchange_rate cfg s (.series data)).exchange_rate_note =
          some (fallbackNote r fd s))
    ∧ (lookupRate data s = none →
      (∀ d ∈ data.map Prod.fst, pyStrLt d s = false) →
      data ≠ [] →
      ∃ ld r, ld ∈ data.map Prod.fst ∧
        (∀ d ∈ data.map Prod.fst, pyStrLe d ld = true) ∧
        (ld, r) ∈ data ∧
        (fetch_and_update_exchange_rate cfg s (.series data)).exchange_rate = some r ∧
        (fetch_and_update_exchange_rate cfg s (.series data)).exchange_rate_note =
          some (latestNote r ld s)) := by
  refine ⟨?_, ?_, ?_⟩
  · intro r hmem
    have hl : lookupRate data s = some r := lookupRate_eq_some hnd hmem
    constructor <;> simp [fetch_and_update_exchange_rate, hl]
  · intro hnone d₀ hd₀ hlt₀
    have hsnotin : s ∉ data.map Prod.fst := lookupRate_none_iff.mp hnone
    have hd₀f : d₀ ∈ (data.map Prod.fst).filter (fun d => pyStrLe d s) :=
      List.mem_filter.mpr ⟨hd₀, pyStrLe_of_lt hlt₀⟩
    cases hlast : (sortLe ((data.map Prod.fst).filter
        (fun d => pyStrLe d s))).getLast? with
    | none =>
      rw [List.getLast?_eq_none_iff, sortLe_eq_nil_iff] at hlast
      rw [hlast] at hd₀f
      cases hd₀f
    | some fd =>
      have hfdmemS : fd ∈ sortLe ((data.map Prod.fst).filter
          (fun d => pyStrLe d s)) := getLast?_mem' hlast
      have hfdf := (mem_sortLe _).mp hfdmemS
      have hfdkeys : fd ∈ data.map Prod.fst := (List.mem_filter.mp hfdf).1
      have hfdle : pyStrLe fd s = true := by
        simpa using (List.mem_filter.mp hfdf).2
      have hfdne : fd ≠ s := fun he => hsnotin (he ▸ hfdkeys)
      have hfdlt : pyStrLt fd s = true := pyStrLt_of_le_ne hfdle hfdne
      obtain ⟨r, hr⟩ := mem_keys_exists_rate hfdkeys
      have hlr : lookupRate data fd = some r := lookupRate_eq_some hnd hr
      refine ⟨fd, r, hfdkeys, hfdlt, ?_, hr, ?_, ?_⟩
      · intro d hd hdlt
        have hdf : d ∈ (data.map Prod.fst).filter (fun x => pyStrLe x s) :=
          List.mem_filter.mpr ⟨hd, pyStrLe_of_lt hdlt⟩
        exact pairwise_getLast_max (sortLe_pairwise _) hlast d ((mem_sortLe _).mpr hdf)
      · simp [fetch_and_update_exchange_rate, hnone, hlast, hlr]
      · simp [fetch_and_update_exchange_rate, hnone, hlast, hlr]
  · intro hnone hnolt hne
    have hsnotin : s ∉ data.map Prod.fst := lookupRate_none_iff.mp hnone
    have hfilter : (data.map Prod.fst).filter (fun d => pyStrLe d s) = [] := by
      rw [List.filter_eq_nil_iff]
      intro d hd
      intro hle
      rcases pyStrLe_iff.mp (by simpa using hle) with hlt | heq
      · rw [hnolt d hd] at hlt
        cases hlt
      · exact hsnotin (heq ▸ hd)
    have hkeysne : data.map Prod.fst ≠ [] := by
      intro h
      exact hne (List.map_eq_nil_iff.mp h)
    cases hlast : (sortLe (data.map Prod.fst)).getLast? with
    | none =>
      rw [List.getLast?_eq_none_iff, sortLe_eq_nil_iff] at hlast
      exact absurd hlast hkeysne
    | some ld =>
      have hldkeys : ld ∈ data.map Prod.fst :=
        (mem_sortLe _).mp (getLast?_mem' hlast)
      obtain ⟨r, hr⟩ := mem_keys_exists_rate hldkeys
      have hlr : lookupRate data ld = some r := lookupRate_eq_some hnd hr
      refine ⟨ld, r, hldkeys, ?_, hr, ?_, ?_⟩
      · intro d hd
        exact pairwise_getLast_max (sortLe_pairwise _) hlast d ((mem_sortLe _).mpr hd)
      · simp [fetch_and_update_exchange_rate, hnone, hfilter, sortLe, hlast, hlr]
      · simp [fetch_and_update_exchange_rate, hnone, hfilter, sortLe, hlast, hlr]

/-- C2 (witness): on the series of the spec's example, requesting
2024-12-16 (absent from the series) selects the 2024-12-14 rate via the
nearest-past fallback. -/
theorem c2_rate_selection_witness :
    ∃ fd r, fd ∈ seriesDemo.map Prod.fst ∧ pyStrLt fd "2024-12-16" = true ∧
      (∀ d ∈ seriesDemo.map Prod.fst, pyStrLt d "2024-12-16" = true →
        pyStrLe d fd = true) ∧
      (fd, r) ∈ seriesDemo ∧
      (fetch_and_update_exchange_rate cfgDemo "2024-12-16"
        (.series seriesDemo)).exchange_rate = some r ∧
      (fetch_and_update_exchange_rate cfgDemo "2024-12-16"
        (.series seriesDemo)).exchange_rate_note =
        some (fallbackNote r fd "2024-12-16") :=
  (c2_rate_selection cfgDemo seriesDemo "2024-12-16" (by decide)).2.1 (by decide)
    "2024-12-14" (by decide) (by decide)

/-! ### Canvas containment: once drawn, an op stays in the document -/

lemma contains_draw {c : Cv} {ops : List DrawOp} {op : DrawOp}
    (h : Cv.contains c op) : Cv.contains (c.draw ops) op := by
  rcases h with h | h
  · exact Or.inl h
  · exact Or.inr (List.mem_append_left _ h)

lemma contains_draw_op {c : Cv} {ops : List DrawOp} {op : DrawOp}
    (h : op ∈ ops) : Cv.contains (c.draw ops) op :=
  Or.inr (List.mem_append_right _ h)

lemma contains_newPage {c : Cv} {op : DrawOp} (h : Cv.contains c op) :
    Cv.contains c.newPage op := by
  rcases h with ⟨p, hp, hop⟩ | h
  · exact Or.inl ⟨p, List.mem_append_left _ hp, hop⟩
  · exact Or.inl ⟨c.cur, List.mem_append_right _ (List.mem_singleton_self _), h⟩

lemma contains_pagebreak {p : Prop} [Decidable p] {c : Cv} {op : DrawOp}
    (h : Cv.contains c op) :
    Cv.contains (if p then (c.newPage).draw [borderRect] else c) op := by
  split
  · exact contains_draw (contains_newPage h)
  · exact h

lemma contains_drawTableParts {op : DrawOp} :
    ∀ (parts : List (List (Q × List String))) (c : Cv) (ty : Q) (fst : Bool),
      Cv.contains c op → Cv.contains (drawTableParts c ty fst parts).1 op
  | [], _, _, _, h => h
  | part :: rest, c, ty, fst, h => by
    rw [drawTableParts]
    apply contains_drawTableParts rest
    apply contains_draw
    by_cases hf : fst = true
    · rw [if_pos hf]
      exact h
    · rw [if_neg hf]
      exact contains_draw (contains_newPage h)

lemma contains_doc {c : Cv} {op : DrawOp} (h : Cv.contains c op) :
    ∃ p ∈ c.doc, op ∈ p := by
  rcases h with ⟨p, hp, hop⟩ | h
  · exact ⟨p, List.mem_append_left _ hp, hop⟩
  · exact ⟨c.cur, List.mem_append_right _ (List.mem_singleton_self _), h⟩

lemma docHasText_of_contains {c : Cv} {x y : Q} {s : String}
    (h : Cv.contains c (.text x y s)) : docHasText c.doc s := by
  rcases contains_doc h with ⟨p, hp, hop⟩
  exact ⟨p, hp, x, y, hop⟩

lemma mem_drawLinesAux {x y gap : Q} {s : String} :
    ∀ {k : Nat} {ls : List String}, s ∈ ls →
      ∃ y', DrawOp.text x y' s ∈ drawLinesAux x y gap k ls
  | _, [], h => absurd h (List.not_mem_nil s)
  | k, t :: ts, h => by
    rcases List.mem_cons.mp h with rfl | h'
    · exact ⟨_, List.mem_cons_self _ _⟩
    · rcases mem_drawLinesAux (k := k + 1) h' with ⟨y', hy'⟩
      exact ⟨y', List.mem_cons_of_mem _ hy'⟩

/-- Every wrapped line of the language's exchange-rate note is drawn in
the rendered document, and the invoice identifier is drawn on the first
page's info block. -/
lemma renderDoc_contains_notes (v : GetView)
    (legal business contact email phone addr siret recvName recvAddr : String)
    (invoice_id : String) (d : PyDate) (lang : Lang) :
    docHasText (renderDoc v legal business contact email phone addr siret
      recvName recvAddr invoice_id d lang) invoice_id
    ∧ ∀ line ∈ pyWrap ((labelsFor lang v.exch_note).exchange_rate_note) paymentWrapW,
      docHasText (renderDoc v legal business contact email phone addr siret
        recvName recvAddr invoice_id d lang) line := by
  constructor
  · rw [renderDoc.eq_def]
    apply docHasText_of_contains
    apply contains_draw
    apply contains_draw
    apply contains_draw
    apply contains_draw
    apply contains_draw
    apply contains_draw
    apply contains_draw
    apply contains_pagebreak
    apply contains_draw
    apply contains_draw
    apply contains_draw
    apply contains_pagebreak
    apply contains_drawTableParts
    apply contains_draw
    apply contains_draw
    apply contains_draw
    apply contains_draw
    apply contains_draw
    apply contains_draw
    apply contains_draw
    apply contains_draw
    apply contains_draw
    apply contains_draw
    apply contains_draw
    exact contains_draw_op (List.mem_cons_of_mem _ (List.mem_cons_self _ _))
  · intro line hline
    cases lang with
    | en =>
      have hline' : line ∈ pyWrap
          (match Lang.en with
           | Lang.fr => (labelsFor Lang.en v.exch_note).exchange_rate_note
           | Lang.en => v.exch_note) paymentWrapW := by
        simpa [labelsFor] using hline
      rw [renderDoc.eq_def]
      apply docHasText_of_contains
      apply contains_draw
      apply contains_draw
      apply contains_draw
      apply contains_draw
      apply contains_draw
      apply contains_draw
      apply contains_draw
      apply contains_pagebreak
      exact contains_draw_op (mem_drawLinesAux hline').choose_spec
    | fr =>
      have hline' : line ∈ pyWrap
          (match Lang.fr with
           | Lang.fr => (labelsFor Lang.fr v.exch_note).exchange_rate_note
           | Lang.en => v.exch_note) paymentWrapW := by
        simpa [labelsFor] using hline
      rw [renderDoc.eq_def]
      apply docHasText_of_contains
      apply contains_draw
      apply contains_draw
      apply contains_draw
      apply contains_draw
      apply contains_draw
      apply contains_draw
      apply contains_draw
      apply contains_pagebreak
      exact contains_draw_op (mem_drawLinesAux hline').choose_spec

lemma create_invoice_pdf_eq {cfg : Config}
    {legal business contact email phone addr siret recvName recvAddr : String}
    (h1 : cfg.company_legal_name = some legal)
    (h2 : cfg.company_business_name = some business)
    (h3 : cfg.company_contact_name = some contact)
    (h4 : cfg.company_email = some email)
    (h5 : cfg.company_phone = some phone)
    (h6 : cfg.company_address = some addr)
    (h7 : cfg.company_siret = some siret)
    (h8 : cfg.receiver_name = some recvName)
    (h9 : cfg.receiver_address = some recvAddr)
    (id : String) (d : PyDate) (lang : Lang) :
    create_invoice_pdf cfg id d lang =
      .ok (renderDoc (getView cfg) legal business contact email phone addr siret
        recvName recvAddr id d lang) := by
  simp only [create_invoice_pdf, h1, h2, h3, h4, h5, h6, h7, h8, h9]

/-- C3: `fetch_and_update_exchange_rate` is total — on a failure
outcome it stores `None` as the rate and an explanatory note — and a
run with a failed fetch (and a reconciling configuration with all
directly-indexed fields present) still produces both PDF documents,
each of which draws the wrapped lines of the failure note (the French
document shows the unmatched English note verbatim, since
`translateNoteFr` leaves non-template notes unchanged). -/
theorem c3_rate_failure_soft (cfg : Config) (dateStr msg : String) (today : PyDate)
    (last : Nat)
    (hreq : RequiredPresent cfg)
    (hrec : pyRound2 (totalServices cfg.services) =
      pyRound2 (cfg.amount_excl_tax.getD ⟨0, 1⟩))
    (hlast : cfg.invoice_last_invoice_number = some last) :
    ((fetch_and_update_exchange_rate cfg dateStr (.failure msg)).exchange_rate = none
    ∧ (fetch_and_update_exchange_rate cfg dateStr (.failure msg)).exchange_rate_note =
        some (fetchFailureNote msg))
    ∧ ∃ docEn docFr,
        runDocs (script.main cfg (.failure msg) today) = [docEn, docFr]
        ∧ (∀ line ∈ pyWrap (fetchFailureNote msg) paymentWrapW, docHasText docEn line)
        ∧ (∀ line ∈ pyWrap (noteShown .fr (fetchFailureNote msg)) paymentWrapW,
            docHasText docFr line) := by
  refine ⟨⟨rfl, rfl⟩, ?_⟩
  obtain ⟨g1, g2, g3, g4, g5, g6, g7, g8, g9⟩ := hreq
  obtain ⟨v1, e1⟩ := Option.isSome_iff_exists.mp g1
  obtain ⟨v2, e2⟩ := Option.isSome_iff_exists.mp g2
  obtain ⟨v3, e3⟩ := Option.isSome_iff_exists.mp g3
  obtain ⟨v4, e4⟩ := Option.isSome_iff_exists.mp g4
  obtain ⟨v5, e5⟩ := Option.isSome_iff_exists.mp g5
  obtain ⟨v6, e6⟩ := Option.isSome_iff_exists.mp g6
  obtain ⟨v7, e7⟩ := Option.isSome_iff_exists.mp g7
  obtain ⟨v8, e8⟩ := Option.isSome_iff_exists.mp g8
  obtain ⟨v9, e9⟩ := Option.isSome_iff_exists.mp g9
  have hrcok : reconciliationCheck cfg = .ok () := by
    simp [reconciliationCheck, hrec]
  have hcfg2 : fetch_and_update_exchange_rate cfg (isoDate today) (.failure msg) =
      { cfg with exchange_rate := none
                 exchange_rate_note := some (fetchFailureNote msg) } := rfl
  set cfg2 := fetch_and_update_exchange_rate cfg (isoDate today) (.failure msg) with hc2
  have e1' : cfg2.company_legal_name = some v1 := by rw [hcfg2]; exact e1
  have e2' : cfg2.company_business_name = some v2 := by rw [hcfg2]; exact e2
  have e3' : cfg2.company_contact_name = some v3 := by rw [hcfg2]; exact e3
  have e4' : cfg2.company_email = some v4 := by rw [hcfg2]; exact e4
  have e5' : cfg2.company_phone = some v5 := by rw [hcfg2]; exact e5
  have e6' : cfg2.company_address = some v6 := by rw [hcfg2]; exact e6
  have e7' : cfg2.company_siret = some v7 := by rw [hcfg2]; exact e7
  have e8' : cfg2.receiver_name = some v8 := by rw [hcfg2]; exact e8
  have e9' : cfg2.receiver_address = some v9 := by rw [hcfg2]; exact e9
  have hen := create_invoice_pdf_eq e1' e2' e3' e4' e5' e6' e7' e8' e9'
    (generate_invoice_id today (last + 1)) today .en
  have hfr := create_invoice_pdf_eq e1' e2' e3' e4' e5' e6' e7' e8' e9'
    (generate_invoice_id today (last + 1)) today .fr
  have hnote : (getView cfg2).exch_note = fetchFailureNote msg := by
    rw [hcfg2]
    simp [getView]
  refine ⟨renderDoc (getView cfg2) v1 v2 v3 v4 v5 v6 v7 v8 v9
      (generate_invoice_id today (last + 1)) today .en,
    renderDoc (getView cfg2) v1 v2 v3 v4 v5 v6 v7 v8 v9
      (generate_invoice_id today (last + 1)) today .fr, ?_, ?_, ?_⟩
  · simp only [script.main, hrcok, hlast, ← hc2, hen, hfr, runDocs, List.map_cons,
      List.map_nil]
  · intro line hline
    have h := (renderDoc_contains_notes (getView cfg2) v1 v2 v3 v4 v5 v6 v7 v8 v9
      (generate_invoice_id today (last + 1)) today .en).2 line
      (by rw [labelsFor, hnote]; exact hline)
    exact h
  · intro line hline
    have h := (renderDoc_contains_notes (getView cfg2) v1 v2 v3 v4 v5 v6 v7 v8 v9
      (generate_invoice_id today (last + 1)) today .fr).2 line
      (by rw [labelsFor, hnote]; exact hline)
    exact h

set_option maxRecDepth 40000 in
/-- C3 (witness): the fail-soft theorem applied to the demo
configuration with a timed-out fetch. -/
theorem c3_rate_failure_soft_witness :
    (fetch_and_update_exchange_rate cfgDemo "2025-01-15"
      (.failure "timeout")).exchange_rate = none
    ∧ (fetch_and_update_exchange_rate cfgDemo "2025-01-15"
        (.failure "timeout")).exchange_rate_note =
        some (fetchFailureNote "timeout")
    ∧ (runDocs (script.main cfgDemo (.failure "timeout") ⟨2025, 1, 15⟩)).length = 2 := by
  have h := c3_rate_failure_soft cfgDemo "2025-01-15" "timeout" ⟨2025, 1, 15⟩ 7
    (by decide) (by decide) rfl
  refine ⟨h.1.1, h.1.2, ?_⟩
  obtain ⟨docEn, docFr, hdocs, -, -⟩ := h.2
  rw [hdocs]
  rfl

/-- C6: the invoice identifier is a pure function of the emission date
and the sequence number — literally the string
`N° #DD-MM-YYYY-XX` with the date in day-month-year order and the
number zero-padded to (at least) two digits, exactly two for numbers
below 100 — and a successful run persists `last + 1` and draws
`generate_invoice_id today (last + 1)` in both produced documents. -/
theorem c6_invoice_id (d : PyDate) (n : Nat) (cfg : Config)
    (outcome : FetchOutcome) (today : PyDate) (last : Nat)
    (hreq : RequiredPresent cfg)
    (hrec : pyRound2 (totalServices cfg.services) =
      pyRound2 (cfg.amount_excl_tax.getD ⟨0, 1⟩))
    (hlast : cfg.invoice_last_invoice_number = some last) :
    generate_invoice_id d n =
      "N° #" ++ pad2 d.day ++ "-" ++ pad2 d.month ++ "-" ++ pad4 d.year ++
        "-" ++ pad2 n
    ∧ (n < 100 → (pad2 n).length = 2)
    ∧ lastNumberOf (script.main cfg outcome today) = some (last + 1)
    ∧ ∀ doc ∈ runDocs (script.main cfg outcome today),
        docHasText doc (generate_invoice_id today (last + 1)) := by
  obtain ⟨g1, g2, g3, g4, g5, g6, g7, g8, g9⟩ := hreq
  obtain ⟨v1, e1⟩ := Option.isSome_iff_exists.mp g1
  obtain ⟨v2, e2⟩ := Option.isSome_iff_exists.mp g2
  obtain ⟨v3, e3⟩ := Option.isSome_iff_exists.mp g3
  obtain ⟨v4, e4⟩ := Option.isSome_iff_exists.mp g4
  obtain ⟨v5, e5⟩ := Option.isSome_iff_exists.mp g5
  obtain ⟨v6, e6⟩ := Option.isSome_iff_exists.mp g6
  obtain ⟨v7, e7⟩ := Option.isSome_iff_exists.mp g7
  obtain ⟨v8, e8⟩ := Option.isSome_iff_exists.mp g8
  obtain ⟨v9, e9⟩ := Option.isSome_iff_exists.mp g9
  have hrcok : reconciliationCheck cfg = .ok () := by
    simp [reconciliationCheck, hrec]
  obtain ⟨r, note, hf⟩ := fetch_shape cfg (isoDate today) outcome
  set cfg2 := fetch_and_update_exchange_rate cfg (isoDate today) outcome with hc2
  have e1' : cfg2.company_legal_name = some v1 := by rw [hf]; exact e1
  have e2' : cfg2.company_business_name = some v2 := by rw [hf]; exact e2
  have e3' : cfg2.company_contact_name = some v3 := by rw [hf]; exact e3
  have e4' : cfg2.company_email = some v4 := by rw [hf]; exact e4
  have e5' : cfg2.company_phone = some v5 := by rw [hf]; exact e5
  have e6' : cfg2.company_address = some v6 := by rw [hf]; exact e6
  have e7' : cfg2.company_siret = some v7 := by rw [hf]; exact e7
  have e8' : cfg2.receiver_name = some v8 := by rw [hf]; exact e8
  have e9' : cfg2.receiver_address = some v9 := by rw [hf]; exact e9
  have hen := create_invoice_pdf_eq e1' e2' e3' e4' e5' e6' e7' e8' e9'
    (generate_invoice_id today (last + 1)) today .en
  have hfr := create_invoice_pdf_eq e1' e2' e3' e4' e5' e6' e7' e8' e9'
    (generate_invoice_id today (last + 1)) today .fr
  refine ⟨?_, ?_, ?_, ?_⟩
  · simp [generate_invoice_id, dashDate, String.append_assoc]
  · intro hn
    have hfin : ∀ i : Fin 100, (pad2 i.val).length = 2 := by decide
    exact hfin ⟨n, hn⟩
  · simp only [script.main, hrcok, hlast, ← hc2, hen, hfr, lastNumberOf]
  · intro doc hdoc
    simp only [script.main, hrcok, hlast, ← hc2, hen, hfr, runDocs, List.map_cons,
      List.map_nil] at hdoc
    rcases List.mem_cons.mp hdoc with rfl | hdoc'
    · exact (renderDoc_contains_notes (getView cfg2) v1 v2 v3 v4 v5 v6 v7 v8 v9
        (generate_invoice_id today (last + 1)) today .en).1
    · rcases List.mem_cons.mp hdoc' with rfl | hdoc''
      · exact (renderDoc_contains_notes (getView cfg2) v1 v2 v3 v4 v5 v6 v7 v8 v9
          (generate_invoice_id today (last + 1)) today .fr).1
      · cases hdoc''

set_option maxRecDepth 40000 in
/-- C6 (witness): the identifier for 15 January 2025 with sequence
number 8, and the demo run persisting 8. -/
theorem c6_invoice_id_witness :
    generate_invoice_id ⟨2025, 1, 15⟩ 8 = "N° #15-01-2025-08"
    ∧ (pad2 8).length = 2
    ∧ lastNumberOf (script.main cfgDemo (.failure "x") ⟨2025, 1, 15⟩) = some 8 := by
  have h := c6_invoice_id ⟨2025, 1, 15⟩ 8 cfgDemo (.failure "x") ⟨2025, 1, 15⟩ 7
    (by decide) (by decide) rfl
  exact ⟨by decide, h.2.1 (by decide), h.2.2.1⟩

/-! ### Parser lemmas for the French note translation -/

lemma stripLit_append : ∀ (p t : List Char), stripLit p (p ++ t) = some t
  | [], _ => rfl
  | c :: p, t => by
    rw [List.cons_append, stripLit, if_pos rfl]
    exact stripLit_append p t

lemma takeWhile_until_rparen {r : List Char} (h : ∀ c ∈ r, c ≠ ')') :
    ∀ t : List Char, (r ++ ')' :: t).takeWhile (fun c => c ≠ ')') = r := by
  induction r with
  | nil => intro t; simp
  | cons c cr ih =>
    intro t
    have hc : (decide (c ≠ ')')) = true := by
      simp [h c (List.mem_cons_self c cr)]
    rw [List.cons_append, List.takeWhile_cons, hc, if_pos rfl,
      ih (fun x hx => h x (List.mem_cons_of_mem c hx)) t]

lemma string_mk_data (s : String) : String.mk s.data = s := by cases s; rfl

/-- The prefix regex of the source accepts exactly the English
template: any note formed as the literal prefix, a nonempty
parenthesis-free rate capture, the literal middle, a ten-character
date of digit-dash shape, and arbitrary trailing text parses into the
two captures. -/
lemma parseEngNote_template (r dt rest : String)
    (hr : r.data ≠ [])
    (hrp : ∀ c ∈ r.data, c ≠ ')')
    (hdt : isDateShape dt.data = true) :
    parseEngNote ("Applied exchange rate: EUR/USD (" ++ r ++
      "), according to the ECB for " ++ dt ++ rest) = some (r, dt) := by
  have hlen : dt.data.length = 10 := by
    have h2 := hdt
    unfold isDateShape at h2
    simp only [Bool.and_eq_true, decide_eq_true_eq] at h2
    exact h2.1.1.1
  have hmid : ("), according to the ECB for ").data =
      ')' :: (", according to the ECB for ").data := by decide
  have hdata : ("Applied exchange rate: EUR/USD (" ++ r ++
      "), according to the ECB for " ++ dt ++ rest).data =
      ("Applied exchange rate: EUR/USD (").data ++
        (r.data ++ ')' :: ((", according to the ECB for ").data ++
          (dt.data ++ rest.data))) := by
    simp [String.data_append, hmid]
  have step1 : stripLit ("Applied exchange rate: EUR/USD (").data
      ("Applied exchange rate: EUR/USD (" ++ r ++
        "), according to the ECB for " ++ dt ++ rest).data =
      some (r.data ++ ')' :: ((", according to the ECB for ").data ++
        (dt.data ++ rest.data))) := by
    rw [hdata]
    exact stripLit_append _ _
  have hne : r.data.isEmpty = false := by
    cases hrd : r.data with
    | nil => exact absurd hrd hr
    | cons a l => rfl
  have hshape : (')' :: ((", according to the ECB for ").data ++
      (dt.data ++ rest.data))) =
      ("), according to the ECB for ").data ++ (dt.data ++ rest.data) := by
    rw [hmid]
    rfl
  have step2 : stripLit ("), according to the ECB for ").data
      (')' :: ((", according to the ECB for ").data ++ (dt.data ++ rest.data))) =
      some (dt.data ++ rest.data) := by
    rw [hshape]
    exact stripLit_append _ _
  simp only [parseEngNote, step1, takeWhile_until_rparen hrp, hne,
    Bool.false_eq_true, if_false, List.drop_left, step2,
    List.take_left' hlen, hdt, if_true, string_mk_data]

/-- C10: in the French rendering, a note beginning with the English
template `Applied exchange rate: EUR/USD (<rate>), according to the ECB
for <date>` is replaced by the French sentence carrying the same rate
and date with any trailing qualification dropped; any note the template
does not match (for example a fetch-failure note) is kept verbatim; and
the French document draws the wrapped lines of exactly
`translateNoteFr` of the configured note. -/
theorem c10_french_note (r dt rest note : String)
    (hr : r.data ≠ [])
    (hrp : ∀ c ∈ r.data, c ≠ ')')
    (hdt : isDateShape dt.data = true) :
    translateNoteFr ("Applied exchange rate: EUR/USD (" ++ r ++
        "), according to the ECB for " ++ dt ++ rest) = frTranslated r dt
    ∧ (parseEngNote note = none → translateNoteFr note = note)
    ∧ ∀ (cfg : Config) (id : String) (d : PyDate), RequiredPresent cfg →
        ∃ doc, create_invoice_pdf cfg id d .fr = .ok doc
          ∧ ∀ line ∈ pyWrap (translateNoteFr (cfg.exchange_rate_note.getD ""))
              paymentWrapW, docHasText doc line := by
  refine ⟨?_, ?_, ?_⟩
  · rw [translateNoteFr, parseEngNote_template r dt rest hr hrp hdt]
  · intro h
    rw [translateNoteFr, h]
  · intro cfg id d hreq
    obtain ⟨g1, g2, g3, g4, g5, g6, g7, g8, g9⟩ := hreq
    obtain ⟨v1, e1⟩ := Option.isSome_iff_exists.mp g1
    obtain ⟨v2, e2⟩ := Option.isSome_iff_exists.mp g2
    obtain ⟨v3, e3⟩ := Option.isSome_iff_exists.mp g3
    obtain ⟨v4, e4⟩ := Option.isSome_iff_exists.mp g4
    obtain ⟨v5, e5⟩ := Option.isSome_iff_exists.mp g5
    obtain ⟨v6, e6⟩ := Option.isSome_iff_exists.mp g6
    obtain ⟨v7, e7⟩ := Option.isSome_iff_exists.mp g7
    obtain ⟨v8, e8⟩ := Option.isSome_iff_exists.mp g8
    obtain ⟨v9, e9⟩ := Option.isSome_iff_exists.mp g9
    refine ⟨renderDoc (getView cfg) v1 v2 v3 v4 v5 v6 v7 v8 v9 id d .fr,
      create_invoice_pdf_eq e1 e2 e3 e4 e5 e6 e7 e8 e9 id d .fr, ?_⟩
    intro line hline
    exact (renderDoc_contains_notes (getView cfg) v1 v2 v3 v4 v5 v6 v7 v8 v9
      id d .fr).2 line (by rw [labelsFor]; exact hline)

/-- C10 (witness): a fallback note is translated with its trailing
qualification dropped, and a fetch-failure note is kept verbatim. -/
theorem c10_french_note_witness :
    translateNoteFr ("Applied exchange rate: EUR/USD (" ++ "1.0500" ++
        "), according to the ECB for " ++ "2024-12-16" ++
        " (latest available before invoice date 2024-12-20)") =
      frTranslated "1.0500" "2024-12-16"
    ∧ translateNoteFr "Could not fetch exchange rate from ECB. timeout" =
        "Could not fetch exchange rate from ECB. timeout" := by
  have h := c10_french_note "1.0500" "2024-12-16"
    " (latest available before invoice date 2024-12-20)"
    "Could not fetch exchange rate from ECB. timeout"
    (by decide) (by decide) (by decide)
  exact ⟨h.1, h.2.1 (by decide)⟩

/-! ### Page-count and continuation-page lemmas -/

lemma doc_length (c : Cv) : c.doc.length = c.pages.length + 1 := by
  simp [Cv.doc]

lemma pages_le_draw {n : Nat} {c : Cv} (ops : List DrawOp)
    (h : n ≤ c.pages.length) : n ≤ (c.draw ops).pages.length := h

lemma pages_le_pagebreak {n : Nat} {p : Prop} [Decidable p] {c : Cv}
    (h : n ≤ c.pages.length) :
    n ≤ (if p then (c.newPage).draw [borderRect] else c).pages.length := by
  split
  · exact Nat.le_trans h (by simp [Cv.newPage, Cv.draw])
  · exact h

lemma onBorderPage_draw {c : Cv} {ops : List DrawOp} {op : DrawOp}
    (h : Cv.onBorderPage c op) : Cv.onBorderPage (c.draw ops) op := by
  rcases h with ⟨p, hp, hh, hm⟩ | ⟨hh, hm⟩
  · exact Or.inl ⟨p, hp, hh, hm⟩
  · refine Or.inr ⟨?_, List.mem_append_left _ hm⟩
    cases hc : c.cur with
    | nil => rw [hc] at hh; cases hh
    | cons a l =>
      rw [hc] at hh
      simpa [Cv.draw, hc] using hh

lemma onBorderPage_newPage {c : Cv} {op : DrawOp} (h : Cv.onBorderPage c op) :
    Cv.onBorderPage c.newPage op := by
  rcases h with ⟨p, hp, hh, hm⟩ | ⟨hh, hm⟩
  · exact Or.inl ⟨p, List.mem_append_left _ hp, hh, hm⟩
  · exact Or.inl ⟨c.cur, List.mem_append_right _ (List.mem_singleton_self _), hh, hm⟩

lemma onBorderPage_pagebreak {p : Prop} [Decidable p] {c : Cv} {op : DrawOp}
    (h : Cv.onBorderPage c op) :
    Cv.onBorderPage (if p then (c.newPage).draw [borderRect] else c) op := by
  split
  · exact onBorderPage_draw (onBorderPage_newPage h)
  · exact h

lemma onBorderPage_doc {c : Cv} {op : DrawOp} (h : Cv.onBorderPage c op) :
    ∃ p ∈ c.doc, p.head? = some borderRect ∧ op ∈ p := by
  rcases h with ⟨p, hp, hh, hm⟩ | ⟨hh, hm⟩
  · exact ⟨p, List.mem_append_left _ hp, hh, hm⟩
  · exact ⟨c.cur, List.mem_append_right _ (List.mem_singleton_self _), hh, hm⟩

/-- A two-part table split: the drawing loop emits the first part on
the current page and the second on a fresh page that starts with the
border and draws the part with its top at the reset cursor
`tableTopY`. -/
lemma drawTableParts_two (c : Cv) (ty : Q) (p1 p2 : List (Q × List String)) :
    (drawTableParts c ty true [p1, p2]).1 =
      ((((c.draw [DrawOp.tablePart pageMargin ((ty.sub (sumHeights p1)))
            (p1.map Prod.fst) (p1.map Prod.snd)]).newPage).draw
          [borderRect]).draw
        [DrawOp.tablePart pageMargin (tableTopY.sub (sumHeights p2))
          (p2.map Prod.fst) (p2.map Prod.snd)]) := by
  rfl

/-- First segment of `splitFit` fits in the available height (up to
the running accumulator): the accepted prefix never pushes the
accumulated height past `avail`. -/
lemma splitFit_sum (avail : Q) : ∀ (rows : List (Q × List String)) (acc : Q),
    (splitFit avail acc rows).1 = [] ∨
      Q.le (acc.add (sumHeights (splitFit avail acc rows).1)) avail
  | [], _ => Or.inl rfl
  | r :: rest, acc => by
    simp only [splitFit]
    by_cases hle : Q.ble (acc.add r.1) avail = true
    · simp only [if_pos hle]
      have hle' : Q.le (acc.add r.1) avail := by
        simpa [Q.ble, Q.le, decide_eq_true_eq] using hle
      right
      rcases splitFit_sum avail rest (acc.add r.1) with h | h
      · rw [h]
        simp only [sumHeights, List.foldr_cons, List.foldr_nil]
        simp only [Q.add, Q.le] at hle' ⊢
        push_cast at hle' ⊢
        ring_nf at hle' ⊢
        nlinarith [hle']
      · simp only [sumHeights, List.foldr_cons] at h ⊢
        simp only [Q.add, Q.le] at h ⊢
        push_cast at h ⊢
        ring_nf at h ⊢
        nlinarith [h]
    · rw [if_neg hle]
      exact Or.inl rfl

lemma qle_of_zero_add {s b : Q} (h : Q.le (Q.add ⟨0, 1⟩ s) b) : Q.le s b := by
  simp only [Q.add, Q.le] at h ⊢
  push_cast at h ⊢
  ring_nf at h ⊢
  linarith [h]

/-- C9 (amended): when the table's cumulative row height exceeds the
space remaining on the first page (and at least one row fits),
`Table.split` produces exactly two segments — a first segment that fits
the remaining space and the unsplit remainder — the document gains an
extra page, and the continuation page starts with the redrawn border
frame and draws the remainder with its top at the reset cursor
`tableTopY`; the remainder is drawn even if it is itself taller than a
page (it is not split again). -/
theorem c9_table_pagination (cfg : Config) (id : String) (d : PyDate) (lang : Lang)
    (hreq : RequiredPresent cfg)
    (hover : Q.ble (sumHeights (tableRowsFor (getView cfg) lang)) tableAvailHeight
      = false)
    (hfit : (splitFit tableAvailHeight ⟨0, 1⟩ (tableRowsFor (getView cfg) lang)).1
      ≠ []) :
    tableSplit (tableRowsFor (getView cfg) lang) tableAvailHeight =
      [(splitFit tableAvailHeight ⟨0, 1⟩ (tableRowsFor (getView cfg) lang)).1,
        (splitFit tableAvailHeight ⟨0, 1⟩ (tableRowsFor (getView cfg) lang)).2]
    ∧ Q.le (sumHeights (splitFit tableAvailHeight ⟨0, 1⟩
        (tableRowsFor (getView cfg) lang)).1) tableAvailHeight
    ∧ ∃ doc, create_invoice_pdf cfg id d lang = .ok doc
        ∧ 2 ≤ doc.length
        ∧ ∃ p ∈ doc, p.head? = some borderRect ∧
            DrawOp.tablePart pageMargin
              (tableTopY.sub (sumHeights (splitFit tableAvailHeight ⟨0, 1⟩
                (tableRowsFor (getView cfg) lang)).2))
              ((splitFit tableAvailHeight ⟨0, 1⟩
                (tableRowsFor (getView cfg) lang)).2.map Prod.fst)
              ((splitFit tableAvailHeight ⟨0, 1⟩
                (tableRowsFor (getView cfg) lang)).2.map Prod.snd) ∈ p := by
  have hfe : (splitFit tableAvailHeight ⟨0, 1⟩
      (tableRowsFor (getView cfg) lang)).1.isEmpty = false := by
    cases hsp : (splitFit tableAvailHeight ⟨0, 1⟩
        (tableRowsFor (getView cfg) lang)).1 with
    | nil => exact absurd hsp hfit
    | cons a l => rfl
  have hparts : tableSplit (tableRowsFor (getView cfg) lang) tableAvailHeight =
      [(splitFit tableAvailHeight ⟨0, 1⟩ (tableRowsFor (getView cfg) lang)).1,
        (splitFit tableAvailHeight ⟨0, 1⟩ (tableRowsFor (getView cfg) lang)).2] := by
    simp only [tableSplit, hover, Bool.false_eq_true, if_false, hfe]
  have hsum : Q.le (sumHeights (splitFit tableAvailHeight ⟨0, 1⟩
      (tableRowsFor (getView cfg) lang)).1) tableAvailHeight := by
    rcases splitFit_sum tableAvailHeight (tableRowsFor (getView cfg) lang) ⟨0, 1⟩
      with h | h
    · exact absurd h hfit
    · exact qle_of_zero_add h
  obtain ⟨g1, g2, g3, g4, g5, g6, g7, g8, g9⟩ := hreq
  obtain ⟨v1, e1⟩ := Option.isSome_iff_exists.mp g1
  obtain ⟨v2, e2⟩ := Option.isSome_iff_exists.mp g2
  obtain ⟨v3, e3⟩ := Option.isSome_iff_exists.mp g3
  obtain ⟨v4, e4⟩ := Option.isSome_iff_exists.mp g4
  obtain ⟨v5, e5⟩ := Option.isSome_iff_exists.mp g5
  obtain ⟨v6, e6⟩ := Option.isSome_iff_exists.mp g6
  obtain ⟨v7, e7⟩ := Option.isSome_iff_exists.mp g7
  obtain ⟨v8, e8⟩ := Option.isSome_iff_exists.mp g8
  obtain ⟨v9, e9⟩ := Option.isSome_iff_exists.mp g9
  refine ⟨hparts, hsum,
    renderDoc (getView cfg) v1 v2 v3 v4 v5 v6 v7 v8 v9 id d lang,
    create_invoice_pdf_eq e1 e2 e3 e4 e5 e6 e7 e8 e9 id d lang, ?_, ?_⟩
  · have hparts2 : tableSplit
        (headerRow (labelsFor lang (getView cfg).exch_note) ::
          serviceRows 1 (getView cfg).services)
        ((((((A4height.sub pageMargin).sub ⟨20, 1⟩).sub ⟨32, 1⟩).sub
          ⟨70, 1⟩).sub ⟨220, 1⟩).sub ⟨230, 1⟩) =
        [(splitFit tableAvailHeight ⟨0, 1⟩ (tableRowsFor (getView cfg) lang)).1,
          (splitFit tableAvailHeight ⟨0, 1⟩ (tableRowsFor (getView cfg) lang)).2] :=
      hparts
    rw [renderDoc.eq_def, doc_length]
    apply Nat.succ_le_succ
    apply pages_le_draw
    apply pages_le_draw
    apply pages_le_draw
    apply pages_le_draw
    apply pages_le_draw
    apply pages_le_draw
    apply pages_le_draw
    apply pages_le_pagebreak
    apply pages_le_draw
    apply pages_le_draw
    apply pages_le_draw
    apply pages_le_pagebreak
    rw [hparts2, drawTableParts_two]
    simp [Cv.newPage, Cv.draw]
  · have hparts2 : tableSplit
        (headerRow (labelsFor lang (getView cfg).exch_note) ::
          serviceRows 1 (getView cfg).services)
        ((((((A4height.sub pageMargin).sub ⟨20, 1⟩).sub ⟨32, 1⟩).sub
          ⟨70, 1⟩).sub ⟨220, 1⟩).sub ⟨230, 1⟩) =
        [(splitFit tableAvailHeight ⟨0, 1⟩ (tableRowsFor (getView cfg) lang)).1,
          (splitFit tableAvailHeight ⟨0, 1⟩ (tableRowsFor (getView cfg) lang)).2] :=
      hparts
    rw [renderDoc.eq_def]
    apply onBorderPage_doc
    apply onBorderPage_draw
    apply onBorderPage_draw
    apply onBorderPage_draw
    apply onBorderPage_draw
    apply onBorderPage_draw
    apply onBorderPage_draw
    apply onBorderPage_draw
    apply onBorderPage_pagebreak
    apply onBorderPage_draw
    apply onBorderPage_draw
    apply onBorderPage_draw
    apply onBorderPage_pagebreak
    rw [hparts2, drawTableParts_two]
    exact Or.inr ⟨rfl, List.mem_cons_of_mem _ (List.mem_cons_self _ _)⟩

set_option maxRecDepth 100000 in
/-- C9 (counterexample): with sixty one-line services the table's
cumulative height (1280) exceeds the space remaining on the first page
(about 239.9), but the table is not split into page-sized segments: the
split happens once, so the rendered document carries a second table
segment of height 1050, taller than the entire A4 page (about 841.9) —
the continuation is drawn overflowing instead of being split again. -/
theorem c9_counterexample :
    Q.ble (sumHeights (tableRowsFor (getView cfgBig) .en)) tableAvailHeight = false
    ∧ (tableSegments (create_invoice_pdf cfgBig "N° #15-01-2025-08"
        ⟨2025, 1, 15⟩ .en)).length = 2
    ∧ (∃ hs ∈ tableSegments (create_invoice_pdf cfgBig "N° #15-01-2025-08"
        ⟨2025, 1, 15⟩ .en), Q.lt A4height (segHeight hs)) := by decide

set_option maxRecDepth 100000 in
/-- C9 (witness): the amended pagination theorem applied to the
sixty-service configuration. -/
theorem c9_table_pagination_witness :
    (tableSplit (tableRowsFor (getView cfgBig) .en) tableAvailHeight).length = 2
    ∧ 2 ≤ pagesOf (create_invoice_pdf cfgBig "N° #15-01-2025-08" ⟨2025, 1, 15⟩ .en) := by
  have h := c9_table_pagination cfgBig "N° #15-01-2025-08" ⟨2025, 1, 15⟩ .en
    (by decide) (by decide) (by decide)
  refine ⟨?_, ?_⟩
  · rw [h.1]
    rfl
  · obtain ⟨doc, hdoc, hlen, -⟩ := h.2.2
    rw [pagesOf.eq_def, hdoc]
    exact hlen

/-! ### Chunk-structure lemmas for the `textwrap` model -/

lemma uniform_singleton (c : Char) : uniformChunk [c] := by
  by_cases hcs : c = ' '
  · exact Or.inl (fun x hx => by rw [List.mem_singleton.mp hx]; exact hcs)
  · exact Or.inr (fun x hx => by rw [List.mem_singleton.mp hx]; exact hcs)

lemma splitRuns_flatten : ∀ l : List Char, (splitRuns l).flatten = l
  | [] => rfl
  | c :: cs => by
    have h2 := splitRuns_flatten cs
    cases hs : splitRuns cs with
    | nil =>
      rw [hs] at h2
      simp only [List.flatten_nil] at h2
      simp [splitRuns, hs, ← h2]
    | cons r rs =>
      rw [hs] at h2
      cases r with
      | nil =>
        simp only [splitRuns, hs]
        simp only [List.flatten_cons] at h2 ⊢
        simpa using h2
      | cons d rt =>
        by_cases hk : ((c = ' ') = (d = ' '))
        · simp only [splitRuns, hs, if_pos hk]
          simp only [List.flatten_cons] at h2 ⊢
          simp [← h2]
        · simp only [splitRuns, hs, if_neg hk]
          simp only [List.flatten_cons] at h2 ⊢
          simp [← h2]

lemma splitRuns_eq_nil_iff (l : List Char) : splitRuns l = [] ↔ l = [] := by
  constructor
  · intro h
    have h2 := splitRuns_flatten l
    rw [h] at h2
    simpa using h2.symm
  · intro h
    rw [h]
    rfl

lemma splitRuns_ok : ∀ l : List Char, ChunksOK (splitRuns l)
  | [] => ⟨fun c hc => absurd hc (List.not_mem_nil c), List.chain'_nil⟩
  | c :: cs => by
    obtain ⟨hne, hch⟩ := splitRuns_ok cs
    cases hs : splitRuns cs with
    | nil =>
      simp only [splitRuns, hs]
      refine ⟨?_, List.chain'_singleton _⟩
      intro ch hc
      rcases List.mem_singleton.mp hc with rfl
      exact ⟨List.cons_ne_nil c [], uniform_singleton c⟩
    | cons r rs =>
      rw [hs] at hne hch
      cases r with
      | nil =>
        exact absurd rfl ((hne [] (List.mem_cons_self [] rs)).1)
      | cons d rt =>
        by_cases hk : ((c = ' ') = (d = ' '))
        · simp only [splitRuns, hs, if_pos hk]
          obtain ⟨hdne, hdu⟩ := hne (d :: rt) (List.mem_cons_self _ _)
          refine ⟨?_, ?_⟩
          · intro ch hc
            rcases List.mem_cons.mp hc with rfl | hc'
            · refine ⟨List.cons_ne_nil c _, ?_⟩
              rcases hdu with hdu | hdu
              · left
                intro x hx
                rcases List.mem_cons.mp hx with rfl | hx'
                · have hd : d = ' ' := hdu d (List.mem_cons_self d rt)
                  rw [eq_iff_iff] at hk
                  exact hk.mpr hd
                · exact hdu x hx'
              · right
                intro x hx
                rcases List.mem_cons.mp hx with rfl | hx'
                · have hd : d ≠ ' ' := hdu d (List.mem_cons_self d rt)
                  intro hc2
                  rw [eq_iff_iff] at hk
                  exact hd (hk.mp hc2)
                · exact hdu x hx'
            · exact hne ch (List.mem_cons_of_mem _ hc')
          · rw [List.chain'_cons'] at hch ⊢
            refine ⟨?_, hch.2⟩
            intro y hy
            have h3 := hch.1 y hy
            have hiff : (c = ' ') ↔ (d = ' ') := by rwa [eq_iff_iff] at hk
            have heq : isWSChunk (c :: d :: rt) = isWSChunk (d :: rt) := by
              by_cases hcs : c = ' '
              · simp [isWSChunk, hcs]
              · have hd : d ≠ ' ' := fun h => hcs (hiff.mpr h)
                simp [isWSChunk, hcs, hd]
            rw [heq]
            exact h3
        · simp only [splitRuns, hs, if_neg hk]
          refine ⟨?_, ?_⟩
          · intro ch hc
            rcases List.mem_cons.mp hc with rfl | hc'
            · exact ⟨List.cons_ne_nil c [], uniform_singleton c⟩
            · exact hne ch hc'
          · rw [List.chain'_cons]
            refine ⟨?_, hch⟩
            obtain ⟨-, hdu⟩ := hne (d :: rt) (List.mem_cons_self _ _)
            by_cases hcs : c = ' '
            · have hd : d ≠ ' ' := fun hd => hk (by simp [hcs, hd])
              have hall : isWSChunk (d :: rt) = false := by
                simp [isWSChunk, hd]
              have hc1 : isWSChunk [c] = true := by simp [isWSChunk, hcs]
              rw [hc1, hall]
              simp
            · have hd : d = ' ' := by
                by_contra hd
                exact hk (by simp [hcs, hd])
              have hall : isWSChunk (d :: rt) = true := by
                rcases hdu with hdu | hdu
                · simp only [isWSChunk, List.all_eq_true, decide_eq_true_eq]
                  exact hdu
                · exact absurd hd (hdu d (List.mem_cons_self d rt))
              have hc1 : isWSChunk [c] = false := by
                simp [isWSChunk, hcs]
              rw [hc1, hall]
              simp

lemma uniform_pair {c : List Char} (hu : uniformChunk c) {x y : Char}
    (hx : x ∈ c) (hy : y ∈ c) : (x = ' ') = (y = ' ') := by
  rcases hu with hu | hu
  · simp [hu x hx, hu y hy]
  · simp [hu x hx, hu y hy]

lemma uniform_tail {x : Char} {c : List Char} (hu : uniformChunk (x :: c)) :
    uniformChunk c := by
  rcases hu with hu | hu
  · exact Or.inl (fun z hz => hu z (List.mem_cons_of_mem x hz))
  · exact Or.inr (fun z hz => hu z (List.mem_cons_of_mem x hz))

lemma uniform_isWS {c : List Char} {x : Char} (hu : uniformChunk c) (hx : x ∈ c) :
    (isWSChunk c = true ↔ x = ' ') := by
  constructor
  · intro h
    rw [isWSChunk, List.all_eq_true] at h
    simpa using h x hx
  · intro h
    rcases hu with hu | hu
    · rw [isWSChunk, List.all_eq_true]
      intro z hz
      simpa using hu z hz
    · exact absurd h (hu x hx)

lemma splitRuns_cons (c : Char) (cs : List Char) :
    splitRuns (c :: cs) =
      match splitRuns cs with
      | [] => [[c]]
      | [] :: rs => [c] :: [] :: rs
      | (d :: r) :: rs =>
        if (c = ' ') = (d = ' ') then (c :: d :: r) :: rs
        else [c] :: (d :: r) :: rs := rfl

lemma splitRuns_append_run : ∀ (c : List Char), c ≠ [] → uniformChunk c →
    ∀ rest : List Char, (∀ a ∈ c, ∀ b ∈ rest.head?, ¬((a = ' ') = (b = ' '))) →
    splitRuns (c ++ rest) = c :: splitRuns rest
  | [], h, _, _, _ => absurd rfl h
  | [x], _, _, rest, hadj => by
    show splitRuns (x :: rest) = [x] :: splitRuns rest
    cases hs : splitRuns rest with
    | nil =>
      have : rest = [] := (splitRuns_eq_nil_iff rest).mp hs
      subst this
      simp [splitRuns]
    | cons r rs =>
      have hok := splitRuns_ok rest
      rw [hs] at hok
      cases r with
      | nil => exact absurd rfl ((hok.1 [] (List.mem_cons_self [] rs)).1)
      | cons d rt =>
        have hflat := splitRuns_flatten rest
        rw [hs] at hflat
        have hhead : rest.head? = some d := by
          rw [← hflat]
          rfl
        have hne : ¬((x = ' ') = (d = ' ')) :=
          hadj x (List.mem_singleton_self x) d (by rw [hhead]; rfl)
        rw [splitRuns_cons, hs]
        simp only [if_neg hne]
  | x :: x' :: c', _, hu, rest, hadj => by
    have hih := splitRuns_append_run (x' :: c') (List.cons_ne_nil x' c')
      (uniform_tail hu) rest
      (fun a ha b hb => hadj a (List.mem_cons_of_mem x ha) b hb)
    have hkind : (x = ' ') = (x' = ' ') :=
      uniform_pair hu (List.mem_cons_self _ _)
        (List.mem_cons_of_mem _ (List.mem_cons_self _ _))
    show splitRuns (x :: ((x' :: c') ++ rest)) = (x :: x' :: c') :: splitRuns rest
    rw [splitRuns_cons, hih]
    simp only [if_pos hkind]

lemma splitRuns_of_ok : ∀ cs : List (List Char), ChunksOK cs →
    splitRuns cs.flatten = cs
  | [], _ => rfl
  | c :: cs', hok => by
    obtain ⟨hne, hch⟩ := hok
    obtain ⟨hcne, hcu⟩ := hne c (List.mem_cons_self c cs')
    rw [List.chain'_cons'] at hch
    have hih := splitRuns_of_ok cs'
      ⟨fun ch hc => hne ch (List.mem_cons_of_mem c hc), hch.2⟩
    rw [List.flatten_cons]
    rw [splitRuns_append_run c hcne hcu (cs'.flatten) ?hadj, hih]
    case hadj =>
      intro a ha b hb
      cases hcs : cs' with
      | nil =>
        subst hcs
        simp at hb
      | cons c2 cs'' =>
        subst hcs
        obtain ⟨hc2ne, hc2u⟩ :=
          hne c2 (List.mem_cons_of_mem c (List.mem_cons_self c2 cs''))
        have hrel : isWSChunk c ≠ isWSChunk c2 := hch.1 c2 rfl
        have hbc2 : b ∈ c2 := by
          cases hc2 : c2 with
          | nil => exact absurd hc2 hc2ne
          | cons e et =>
            rw [hc2] at hb
            simp only [List.flatten_cons, List.cons_append, List.head?_cons,
              Option.mem_def, Option.some.injEq] at hb
            rw [hb]
            exact List.mem_cons_self b et
        intro heq
        by_cases has : a = ' '
        · have hbs : b = ' ' := by rw [← heq]; exact has
          exact hrel (by
            rw [(uniform_isWS hcu ha).mpr has, (uniform_isWS hc2u hbc2).mpr hbs])
        · have hbs : b ≠ ' ' := fun hb2 => has (by rw [heq]; exact hb2)
          have h1 : isWSChunk c = false := by
            cases h2 : isWSChunk c with
            | true => exact absurd ((uniform_isWS hcu ha).mp h2) has
            | false => rfl
          have h2 : isWSChunk c2 = false := by
            cases h3 : isWSChunk c2 with
            | true => exact absurd ((uniform_isWS hc2u hbc2).mp h3) hbs
            | false => rfl
          exact hrel (by rw [h1, h2])

/-- The words of a well-formed chunk list's concatenation are exactly
its non-whitespace chunks. -/
lemma lineWords_flatten {cs : List (List Char)} (h : ChunksOK cs) :
    lineWords cs.flatten = cs.filter (fun c => !isWSChunk c) := by
  rw [lineWords, splitRuns_of_ok cs h]

/-! ### Step equations and invariants of the wrap loop -/

lemma wrapLoop_nil (w : Nat) : ∀ (fuel : Nat) (lines : List (List Char)),
    wrapLoop w fuel [] lines = lines
  | 0, _ => rfl
  | _ + 1, _ => rfl

lemma fillLine_append (w : Nat) : ∀ (curLen : Nat) (cs : List (List Char)),
    (fillLine w curLen cs).1 ++ (fillLine w curLen cs).2 = cs
  | _, [] => rfl
  | curLen, ch :: rest => by
    by_cases h : curLen + ch.length ≤ w
    · simp [fillLine, h, fillLine_append w (curLen + ch.length) rest]
    · simp [fillLine, h]

lemma fillLine_head_fit {w : Nat} {c1 ch : List Char} {r1 cur rtl : List (List Char)}
    (hfill : fillLine w 0 (c1 :: r1) = (cur, ch :: rtl)) (hlen : ch.length ≤ w) :
    cur ≠ [] := by
  by_cases h : 0 + c1.length ≤ w
  · simp only [fillLine, if_pos h] at hfill
    rw [Prod.mk.injEq] at hfill
    intro hc
    rw [hc] at hfill
    exact absurd hfill.1 (List.cons_ne_nil _ _)
  · exfalso
    simp only [fillLine, if_neg h] at hfill
    rw [Prod.mk.injEq] at hfill
    obtain ⟨hfa, hfb⟩ := hfill
    injection hfb with h2 h3
    subst h2
    omega

lemma chunksLen_append (a b : List (List Char)) :
    chunksLen (a ++ b) = chunksLen a + chunksLen b := by
  simp [chunksLen]

lemma wrapMeasure_append (a b : List (List Char)) :
    wrapMeasure (a ++ b) = wrapMeasure a + wrapMeasure b := by
  simp only [wrapMeasure, chunksLen, List.map_append, List.sum_append,
    List.length_append]
  omega

lemma wrapMeasure_cons (c : List Char) (l : List (List Char)) :
    wrapMeasure (c :: l) = c.length + 1 + wrapMeasure l := by
  simp only [wrapMeasure, chunksLen, List.map_cons, List.sum_cons, List.length_cons]
  omega

lemma ChunksOK_append_left {a b : List (List Char)} (h : ChunksOK (a ++ b)) :
    ChunksOK a :=
  ⟨fun c hc => h.1 c (List.mem_append_left b hc), (List.chain'_append.mp h.2).1⟩

lemma ChunksOK_append_right {a b : List (List Char)} (h : ChunksOK (a ++ b)) :
    ChunksOK b :=
  ⟨fun c hc => h.1 c (List.mem_append_right a hc), (List.chain'_append.mp h.2).2.1⟩

lemma ChunksOK_tail {c : List Char} {l : List (List Char)} (h : ChunksOK (c :: l)) :
    ChunksOK l :=
  @ChunksOK_append_right [c] l h

lemma getLast?_decomp {α : Type} : ∀ (l : List α) (a : α), l.getLast? = some a →
    l = l.dropLast ++ [a]
  | [], _, h => by simp at h
  | [x], a, h => by
    have h2 : x = a := by
      have h3 : some x = some a := h
      exact Option.some.inj h3
    subst h2
    rfl
  | x :: y :: t, a, h => by
    have h2 : (y :: t).getLast? = some a := by
      rw [← List.getLast?_cons_cons]
      exact h
    have ih := getLast?_decomp (y :: t) a h2
    calc x :: y :: t = x :: ((y :: t).dropLast ++ [a]) := by rw [← ih]
      _ = (x :: y :: t).dropLast ++ [a] := rfl

lemma trimWS_none (cur : List (List Char)) (hlast : cur.getLast? = none) :
    trimWS cur = cur := by
  unfold trimWS
  rw [hlast]

lemma trimWS_eq (cur : List (List Char)) (a : List Char)
    (hlast : cur.getLast? = some a) :
    trimWS cur = if isWSChunk a = true then cur.dropLast else cur := by
  unfold trimWS
  rw [hlast]

lemma trimWS_filter (cur : List (List Char)) :
    (trimWS cur).filter (fun c => !isWSChunk c) = cur.filter (fun c => !isWSChunk c) := by
  cases hlast : cur.getLast? with
  | none => rw [trimWS_none cur hlast]
  | some a =>
    rw [trimWS_eq cur a hlast]
    by_cases hws : isWSChunk a = true
    · rw [if_pos hws]
      conv_rhs => rw [getLast?_decomp cur a hlast]
      simp [List.filter_append, hws]
    · rw [if_neg hws]

lemma trimWS_concat (cur : List (List Char)) (a : List Char)
    (ha : isWSChunk a = true) : trimWS (cur ++ [a]) = cur := by
  unfold trimWS
  rw [List.getLast?_concat]
  simp [ha, List.dropLast_concat]

lemma ChunksOK_trimWS {cur : List (List Char)} (h : ChunksOK cur) :
    ChunksOK (trimWS cur) := by
  cases hlast : cur.getLast? with
  | none => rw [trimWS_none cur hlast]; exact h
  | some a =>
    rw [trimWS_eq cur a hlast]
    obtain ⟨d, rfl⟩ : ∃ d, cur = d ++ [a] :=
      ⟨cur.dropLast, getLast?_decomp cur a hlast⟩
    by_cases hws : isWSChunk a = true
    · rw [if_pos hws, List.dropLast_concat]
      exact ChunksOK_append_left h
    · rw [if_neg hws]
      exact h

lemma isWSChunk_take {ch : List Char} (s : Nat) (h : isWSChunk ch = true) :
    isWSChunk (ch.take s) = true := by
  rw [isWSChunk, List.all_eq_true] at h ⊢
  exact fun x hx => h x (List.mem_of_mem_take hx)

lemma isWSChunk_drop {ch : List Char} (s : Nat) (h : isWSChunk ch = true) :
    isWSChunk (ch.drop s) = true := by
  rw [isWSChunk, List.all_eq_true] at h ⊢
  exact fun x hx => h x (List.mem_of_mem_drop hx)

lemma ChunksOK_long_tail {ch : List Char} {rtl : List (List Char)} (s : Nat)
    (h : ChunksOK (ch :: rtl)) (hws : isWSChunk ch = true) (hd : ch.drop s ≠ []) :
    ChunksOK (ch.drop s :: rtl) := by
  obtain ⟨hne, hch⟩ := h
  rw [List.chain'_cons'] at hch
  refine ⟨fun c hc => ?_, List.chain'_cons'.mpr ⟨?_, hch.2⟩⟩
  · rcases List.mem_cons.mp hc with hc | hc
    · subst hc
      refine ⟨hd, Or.inl fun x hx => ?_⟩
      have h2 := isWSChunk_drop s hws
      rw [isWSChunk, List.all_eq_true] at h2
      simpa using h2 x hx
    · exact hne c (List.mem_cons_of_mem ch hc)
  · intro y hy
    rw [isWSChunk_drop s hws, ← hws]
    exact hch.1 y hy

lemma addLine_flatMap (lines : List (List Char)) {cur3 : List (List Char)}
    (h : ChunksOK cur3) :
    (addLine lines cur3).flatMap lineWords =
      lines.flatMap lineWords ++ cur3.filter (fun c => !isWSChunk c) := by
  unfold addLine
  cases cur3 with
  | nil => simp
  | cons c cs =>
    rw [if_neg (by simp)]
    rw [List.flatMap_append]
    simp only [List.flatMap_cons, List.flatMap_nil, List.append_nil]
    rw [lineWords_flatten h]

lemma wrapLoop_drop_nil (w fuel : Nat) (ch0 : List Char) (lines : List (List Char))
    (hl : lines.isEmpty = false) (hws : isWSChunk ch0 = true) :
    wrapLoop w (fuel + 1) [ch0] lines = lines := by
  simp [wrapLoop, hl, hws]

lemma wrapLoop_drop_cons (w fuel : Nat) (ch0 c1 : List Char)
    (r1 lines : List (List Char))
    (hl : lines.isEmpty = false) (hws : isWSChunk ch0 = true)
    (hc1 : isWSChunk c1 = false) :
    wrapLoop w (fuel + 1) (ch0 :: c1 :: r1) lines =
      wrapLoop w (fuel + 1) (c1 :: r1) lines := by
  simp [wrapLoop, hl, hws, hc1]

lemma wrapLoop_keep_nilrem (w fuel : Nat) (c1 : List Char)
    (r1 lines cur : List (List Char))
    (hkeep : (!lines.isEmpty && isWSChunk c1) = false)
    (hfill : fillLine w 0 (c1 :: r1) = (cur, [])) :
    wrapLoop w (fuel + 1) (c1 :: r1) lines =
      wrapLoop w fuel [] (addLine lines (trimWS cur)) := by
  simp [wrapLoop, hkeep, hfill, addLine, trimWS]

lemma wrapLoop_keep_short (w fuel : Nat) (c1 ch : List Char)
    (r1 lines cur rtl : List (List Char))
    (hkeep : (!lines.isEmpty && isWSChunk c1) = false)
    (hfill : fillLine w 0 (c1 :: r1) = (cur, ch :: rtl))
    (hlen : ¬ w < ch.length) :
    wrapLoop w (fuel + 1) (c1 :: r1) lines =
      wrapLoop w fuel (ch :: rtl) (addLine lines (trimWS cur)) := by
  simp [wrapLoop, hkeep, hfill, hlen, addLine, trimWS]

lemma wrapLoop_keep_long (w fuel : Nat) (c1 ch : List Char)
    (r1 lines cur rtl : List (List Char))
    (hkeep : (!lines.isEmpty && isWSChunk c1) = false)
    (hfill : fillLine w 0 (c1 :: r1) = (cur, ch :: rtl))
    (hlen : w < ch.length) (hw0 : w ≠ 0) :
    wrapLoop w (fuel + 1) (c1 :: r1) lines =
      wrapLoop w fuel (ch.drop (w - chunksLen cur) :: rtl)
        (addLine lines (trimWS (cur ++ [ch.take (w - chunksLen cur)]))) := by
  simp [wrapLoop, hkeep, hfill, hlen, hw0, addLine, trimWS]

/-- Word preservation of the wrap loop: when the width is positive and
every non-whitespace chunk fits within it, the words of the produced
lines are exactly the accumulated words plus the remaining
non-whitespace chunks, in order. -/
lemma wrapLoop_words (w : Nat) (hw : 1 ≤ w) : ∀ (n : Nat) (chunks : List (List Char)),
    wrapMeasure chunks ≤ n → ∀ (fuel : Nat) (lines : List (List Char)),
    wrapMeasure chunks < fuel → ChunksOK chunks →
    (∀ c ∈ chunks, isWSChunk c = false → c.length ≤ w) →
    (wrapLoop w fuel chunks lines).flatMap lineWords =
      lines.flatMap lineWords ++ chunks.filter (fun c => !isWSChunk c)
  | _, [], _, fuel, lines, _, _, _ => by
    rw [wrapLoop_nil]
    simp
  | 0, ch0 :: rest0, hn, _, _, _, _, _ => by
    rw [wrapMeasure_cons] at hn
    omega
  | n + 1, ch0 :: rest0, hn, fuel, lines, hfuel, hok, hbound => by
    cases fuel with
    | zero => exact absurd hfuel (Nat.not_lt_zero _)
    | succ f =>
    by_cases hdrop : (!lines.isEmpty && isWSChunk ch0) = true
    · rw [Bool.and_eq_true, Bool.not_eq_true'] at hdrop
      obtain ⟨hlines, hws⟩ := hdrop
      cases rest0 with
      | nil =>
        rw [wrapLoop_drop_nil w f ch0 lines hlines hws]
        simp [List.filter_cons, hws]
      | cons c1 r1 =>
        have hrel := (List.chain'_cons.mp hok.2).1
        have hc1 : isWSChunk c1 = false := by
          cases hh : isWSChunk c1 with
          | false => rfl
          | true => exact absurd (by rw [hws, hh]) hrel
        rw [wrapLoop_drop_cons w f ch0 c1 r1 lines hlines hws hc1]
        have hm : wrapMeasure (c1 :: r1) ≤ n := by
          rw [wrapMeasure_cons] at hn
          omega
        have hm2 : wrapMeasure (c1 :: r1) < f + 1 := by
          rw [wrapMeasure_cons] at hfuel
          omega
        rw [wrapLoop_words w hw n (c1 :: r1) hm (f + 1) lines hm2
          (@ChunksOK_tail ch0 (c1 :: r1) hok)
          (fun c hc hcw => hbound c (List.mem_cons_of_mem ch0 hc) hcw)]
        simp [List.filter_cons, hws]
    · have hkeep : (!lines.isEmpty && isWSChunk ch0) = false := by
        cases hh : (!lines.isEmpty && isWSChunk ch0) with
        | false => rfl
        | true => exact absurd hh hdrop
      rcases hfill : fillLine w 0 (ch0 :: rest0) with ⟨cur, rem⟩
      have happ : cur ++ rem = ch0 :: rest0 := by
        have h2 := fillLine_append w 0 (ch0 :: rest0)
        rw [hfill] at h2
        exact h2
      have hokC : ChunksOK (cur ++ rem) := by rw [happ]; exact hok
      have hcur : ChunksOK cur := ChunksOK_append_left hokC
      have hrem : ChunksOK rem := ChunksOK_append_right hokC
      have hmeq : wrapMeasure cur + wrapMeasure rem = wrapMeasure (ch0 :: rest0) := by
        rw [← wrapMeasure_append, happ]
      cases rem with
      | nil =>
        rw [wrapLoop_keep_nilrem w f ch0 rest0 lines cur hkeep hfill]
        rw [wrapLoop_nil]
        rw [addLine_flatMap lines (ChunksOK_trimWS hcur)]
        rw [trimWS_filter]
        rw [List.append_nil] at happ
        rw [happ]
      | cons ch rtl =>
        have hchmem : ch ∈ ch0 :: rest0 := by
          rw [← happ]
          exact List.mem_append_right cur (List.mem_cons_self ch rtl)
        by_cases hlen : w < ch.length
        · have hwsch : isWSChunk ch = true := by
            cases hh : isWSChunk ch with
            | true => rfl
            | false => exact absurd hlen (by have := hbound ch hchmem hh; omega)
          have hw0 : w ≠ 0 := by omega
          rw [wrapLoop_keep_long w f ch0 ch rest0 lines cur rtl hkeep hfill hlen hw0]
          have htake : isWSChunk (ch.take (w - chunksLen cur)) = true :=
            isWSChunk_take _ hwsch
          have hdropws : isWSChunk (ch.drop (w - chunksLen cur)) = true :=
            isWSChunk_drop _ hwsch
          have hdropne : ch.drop (w - chunksLen cur) ≠ [] := by
            intro hnil
            have h2 := congrArg List.length hnil
            rw [List.length_drop] at h2
            simp at h2
            omega
          rw [trimWS_concat cur _ htake]
          have hok2 : ChunksOK (ch.drop (w - chunksLen cur) :: rtl) :=
            ChunksOK_long_tail _ hrem hwsch hdropne
          have hbound2 : ∀ c ∈ ch.drop (w - chunksLen cur) :: rtl,
              isWSChunk c = false → c.length ≤ w := by
            intro c hc hcw
            rcases List.mem_cons.mp hc with hc | hc
            · subst hc
              rw [hdropws] at hcw
              exact Bool.noConfusion hcw
            · exact hbound c
                (by rw [← happ]
                    exact List.mem_append_right cur (List.mem_cons_of_mem ch hc)) hcw
          have hld : (ch.drop (w - chunksLen cur)).length =
              ch.length - (w - chunksLen cur) := List.length_drop _ _
          have hmlt : wrapMeasure (ch.drop (w - chunksLen cur) :: rtl) <
              wrapMeasure (ch0 :: rest0) := by
            rw [← hmeq, wrapMeasure_cons, wrapMeasure_cons]
            cases cur with
            | nil =>
              have h00 : wrapMeasure ([] : List (List Char)) = 0 := rfl
              have hcl : chunksLen ([] : List (List Char)) = 0 := rfl
              omega
            | cons a as =>
              have h1 : 1 ≤ wrapMeasure (a :: as) := by
                rw [wrapMeasure_cons]
                omega
              omega
          have hm : wrapMeasure (ch.drop (w - chunksLen cur) :: rtl) ≤ n := by omega
          have hm2 : wrapMeasure (ch.drop (w - chunksLen cur) :: rtl) < f := by omega
          rw [wrapLoop_words w hw n _ hm f (addLine lines cur) hm2 hok2 hbound2]
          rw [addLine_flatMap lines hcur]
          have hfe : (ch.drop (w - chunksLen cur) :: rtl).filter (fun c => !isWSChunk c)
              = (ch :: rtl).filter (fun c => !isWSChunk c) := by
            simp [List.filter_cons, hdropws, hwsch]
          rw [List.append_assoc, hfe, ← List.filter_append, happ]
        · have hcurne : cur ≠ [] := fillLine_head_fit hfill (by omega)
          rw [wrapLoop_keep_short w f ch0 ch rest0 lines cur rtl hkeep hfill hlen]
          have hbound2 : ∀ c ∈ ch :: rtl, isWSChunk c = false → c.length ≤ w :=
            fun c hc hcw => hbound c
              (by rw [← happ]; exact List.mem_append_right cur hc) hcw
          have hmcur : 1 ≤ wrapMeasure cur := by
            cases cur with
            | nil => exact absurd rfl hcurne
            | cons a as =>
              rw [wrapMeasure_cons]
              omega
          have hmlt : wrapMeasure (ch :: rtl) < wrapMeasure (ch0 :: rest0) := by omega
          have hm : wrapMeasure (ch :: rtl) ≤ n := by omega
          have hm2 : wrapMeasure (ch :: rtl) < f := by omega
          rw [wrapLoop_words w hw n (ch :: rtl) hm f (addLine lines (trimWS cur))
            hm2 hrem hbound2]
          rw [addLine_flatMap lines (ChunksOK_trimWS hcur)]
          rw [trimWS_filter]
          rw [List.append_assoc, ← List.filter_append, happ]

lemma flatMap_map_mk (L : List (List Char)) :
    (L.map String.mk).flatMap (fun l => lineWords l.data) = L.flatMap lineWords := by
  induction L with
  | nil => rfl
  | cons a t ih => simp [List.flatMap_cons, ih]

/-- `textwrap.wrap` preserves the whitespace-separated words of the text
whenever the width is positive and every word fits within it. -/
lemma pyWrap_words (s : String) (w : Nat) (hw : 1 ≤ w)
    (hbound : ∀ c ∈ textWords s, c.length ≤ w) :
    wrapWordsPreserved s w := by
  unfold wrapWordsPreserved
  have hok := splitRuns_ok (replaceWS s).data
  have hb2 : ∀ c ∈ splitRuns (replaceWS s).data, isWSChunk c = false → c.length ≤ w := by
    intro c hc hcw
    apply hbound
    unfold textWords lineWords
    refine List.mem_filter.mpr ⟨hc, ?_⟩
    rw [hcw]
    rfl
  have hmain := wrapLoop_words w hw (wrapMeasure (splitRuns (replaceWS s).data))
    (splitRuns (replaceWS s).data) (le_refl _)
    (wrapMeasure (splitRuns (replaceWS s).data) + 1) []
    (Nat.lt_succ_self _) hok hb2
  have hpw : pyWrap s w =
      (wrapLoop w (wrapMeasure (splitRuns (replaceWS s).data) + 1)
        (splitRuns (replaceWS s).data) []).map String.mk := rfl
  rw [hpw, flatMap_map_mk]
  exact hmain.trans rfl

/-- C8: counterexample — with a 28-point box width at font size 10 the
computed wrap width is 5 characters, and the single 8-character word
"abcdefgh" is broken mid-word into "abcde" and "fgh", so the produced
lines are not obtained by breaking the input at whitespace only. -/
theorem c8_counterexample :
    wrapWidth ⟨28, 1⟩ ⟨10, 1⟩ = 5 ∧
    pyWrap "abcdefgh" 5 = ["abcde", "fgh"] ∧
    ¬ wrapWordsPreserved "abcdefgh" 5 := by
  refine ⟨by decide, by decide, fun h => ?_⟩
  unfold wrapWordsPreserved at h
  exact absurd h (by decide)

/-- C8 (amended): `draw_wrapped_text` splits the text on newlines and wraps
each segment to `wrapWidth max_width font_size`, the available width in
points divided by `font_size × 0.55` and truncated to an integer. For
hyphen-free text, whenever that character width is at least 1 and every
whitespace-separated word of every segment fits within it, the lines are
broken at whitespace only: the words of the wrapped lines of each segment
are exactly the words of that segment, in order, with no characters lost.
Outside these hypotheses the property fails in the program: words longer
than the width are broken mid-word (`break_long_words=True` default,
refuting the original claim), and `textwrap.wrap`'s `break_on_hyphens=True`
default can additionally break a hyphenated word after an internal hyphen
even when it fits — the embedding models `textwrap` only on hyphen-free
text, which the no-hyphen hypothesis makes explicit. -/
theorem c8_wrapping (text : String) (x y maxWidth fontSize lineGap : Q)
    (_hhyph : ∀ c ∈ text.data, c ≠ '-')
    (hw : 1 ≤ wrapWidth maxWidth fontSize)
    (hbound : ∀ ln ∈ splitChar '\n' text, ∀ c ∈ textWords ln,
      c.length ≤ wrapWidth maxWidth fontSize) :
    (draw_wrapped_text text x y maxWidth fontSize lineGap).1 =
      drawLinesAux x y lineGap 0 ((splitChar '\n' text).flatMap
        (fun line => pyWrap line (wrapWidth maxWidth fontSize))) ∧
    ∀ ln ∈ splitChar '\n' text, wrapWordsPreserved ln (wrapWidth maxWidth fontSize) :=
  ⟨rfl, fun ln hln => pyWrap_words ln _ hw (hbound ln hln)⟩

theorem c8_wrapping_witness :
    (∀ c ∈ "hello\nworld go".data, c ≠ '-') ∧
    1 ≤ wrapWidth ⟨28, 1⟩ ⟨10, 1⟩ ∧
    (∀ ln ∈ splitChar '\n' "hello\nworld go", ∀ c ∈ textWords ln,
      c.length ≤ wrapWidth ⟨28, 1⟩ ⟨10, 1⟩) ∧
    ∀ ln ∈ splitChar '\n' "hello\nworld go",
      wrapWordsPreserved ln (wrapWidth ⟨28, 1⟩ ⟨10, 1⟩) :=
  ⟨by decide, by decide, by decide,
    (c8_wrapping "hello\nworld go" ⟨0, 1⟩ ⟨0, 1⟩ ⟨28, 1⟩ ⟨10, 1⟩ ⟨0, 1⟩
      (by decide) (by decide) (by decide)).2⟩
